import Mathlib

/-!
Shallow embedding of `src/data_cleansing.py` (`clean_dataframe` and its inner
`clean_cell`), together with proofs about the claims of the specification.

Modelling choices, documented once here:

* A pandas `DataFrame` is modelled as an ordered list of columns; each column
  carries a name, a pandas dtype and its list of cells.  Cell values are one of
  missing (`pd.NA` / `NaN` / `NaT`), string, numeric or datetime; numbers are
  modelled as exact rationals (the 80% threshold `4/5 = 0.8` is exactly
  representable as a binary double, so the boundary comparison of the source
  agrees with exact rational arithmetic at the threshold the spec tests).
* `pd.to_datetime(..., errors='coerce', infer_datetime_format=True)` and
  `pd.to_numeric` are external library calls; their per-value behaviour is a
  parameter (`Parsers`).  Theorems are proved for every parser; concrete
  counterexamples use a small executable ISO-date / integer parser whose
  verdicts on the concrete strings involved agree with pandas.
* `df.applymap(clean_cell)` re-infers dtypes in pandas; for columns whose cells
  are strings/missing (the only situation the claims exercise) the inferred
  dtype equals the previous one, and the model keeps the dtype unchanged.
* Line 28 of the source, `df.columns = df.columns.str.strip()`, mutates the
  caller's DataFrame in place (`df` is still the caller's object at that
  point); every later step operates on fresh frames (`df.loc`, `applymap`,
  `drop_duplicates`, `dropna` return new objects and `inplace=True` is applied
  to such a fresh object).  The observable effect of a call on its argument is
  therefore `inputAfterClean` below.
* Because duplicate columns are removed *before* special characters are
  replaced by underscores (lines 30/32), sanitisation can re-create duplicate
  names.  When a duplicated name names an object column, `df[col]` inside the
  datetime loop (line 50) yields a two-column DataFrame and
  `pd.to_datetime(DataFrame, errors='coerce')` raises `ValueError` (datetime
  assembly requires year/month/day columns) regardless of `errors`.  The
  embedding of the whole pipeline therefore returns `Except`, raising exactly
  in that situation; `clean_stages` is the per-column value the stages compute
  when no such collision occurs.
-/

namespace DataCleansing

/-- pandas dtype of a column, as far as the pipeline distinguishes them:
`object` columns are the candidates for type inference. -/
inductive DType where
  | obj : DType
  | datetime : DType
  | numeric : DType
deriving DecidableEq, Repr

/-- One cell of the table: missing (`pd.NA`/`NaN`/`NaT`), a string, a number,
or a datetime value (datetimes are abstract timestamps). -/
inductive Cell where
  | na : Cell
  | str : String → Cell
  | num : ℚ → Cell
  | date : ℕ → Cell
deriving DecidableEq, Repr

/-- A named, typed column. -/
structure Col where
  name : String
  dtype : DType
  cells : List Cell
deriving DecidableEq, Repr

/-- A DataFrame: ordered list of columns (rows are aligned by index). -/
abbrev Table := List Col

/-- Behaviour of the external pandas parsing routines on single values:
`parseDate` is `pd.to_datetime` on a string, `numToDate` is `pd.to_datetime`
on a number, `parseNum` is `pd.to_numeric` on a string. -/
structure Parsers where
  parseDate : String → Option ℕ
  numToDate : ℚ → Option ℕ
  parseNum : String → Option ℚ

/-- Python's `\s` / `str.strip` whitespace, restricted to ASCII. -/
def isPySpace (ch : Char) : Bool :=
  ch == ' ' || ch == '\t' || ch == '\n' || ch == '\r' || ch == '\x0b' || ch == '\x0c'

/-- Drop leading whitespace (left half of Python `str.strip`). -/
def trimLeft (l : List Char) : List Char := l.dropWhile isPySpace

/-- Drop trailing whitespace (right half of Python `str.strip`). -/
def trimRight : List Char → List Char
  | [] => []
  | a :: t =>
    match trimRight t with
    | [] => if isPySpace a then [] else [a]
    | r => a :: r

/-- Python `str.strip()`. -/
def trimChars (l : List Char) : List Char := trimRight (trimLeft l)

/-- Python `s.strip()` on a `String`. -/
def trimPy (s : String) : String := String.mk (trimChars s.data)

/-- `re.sub(r'\s+', ' ', ...)`: replace every maximal run of whitespace by a
single space.  The flag records whether we are inside a whitespace run whose
replacement space has already been emitted. -/
def collapseAux : Bool → List Char → List Char
  | _, [] => []
  | inRun, ch :: rest =>
    if isPySpace ch then
      if inRun then collapseAux true rest
      else ' ' :: collapseAux true rest
    else ch :: collapseAux false rest

/-- `cell.strip()` followed by `re.sub(r'\s+', ' ', cell)` (line 38/39). -/
def normalizeChars (l : List Char) : List Char := collapseAux false (trimChars l)

/-- String version of `normalizeChars`. -/
def normalizeStr (s : String) : String := String.mk (normalizeChars s.data)

/-- The sentinel strings of line 41. -/
def sentinels : List String := ["null", "unknown", "error"]

/-- Python `str.lower()` on one character (ASCII; the sentinels are ASCII). -/
def lowerChar (ch : Char) : Char :=
  if 'A' ≤ ch ∧ ch ≤ 'Z' then Char.ofNat (ch.toNat + 32) else ch

/-- Python `str.lower()`. -/
def lowerStr (s : String) : String := String.mk (s.data.map lowerChar)

/-- `clean_cell` (lines 35-43): strings are stripped, internal whitespace runs
are collapsed, and sentinel strings become missing; other values pass through. -/
def clean_cell (cell : Cell) : Cell :=
  match cell with
  | Cell.str s =>
    let s1 := normalizeStr s
    if lowerStr s1 ∈ sentinels then Cell.na else Cell.str s1
  | c => c

/-- Line 28: `df.columns = df.columns.str.strip()`. -/
def stripNames (t : Table) : Table := t.map (fun c => { c with name := trimPy c.name })

/-- Line 30: `df = df.loc[:, ~df.columns.duplicated()]` — keep the first
column of each name, scanning left to right. -/
def dedupColumnsAux : List String → Table → Table
  | _, [] => []
  | seen, c :: rest =>
    if c.name ∈ seen then dedupColumnsAux seen rest
    else c :: dedupColumnsAux (c.name :: seen) rest

/-- Duplicate-column removal starting from no names seen. -/
def dedupColumns (t : Table) : Table := dedupColumnsAux [] t

/-- A character kept verbatim by the regex `[^A-Za-z0-9_]+` of line 32. -/
def isWordChar (ch : Char) : Bool := ch.isAlpha || ch.isDigit || ch == '_'

/-- Line 32: replace each maximal run of characters outside `[A-Za-z0-9_]`
with a single underscore.  The flag records being inside such a run. -/
def sanitizeAux : Bool → List Char → List Char
  | _, [] => []
  | inRun, ch :: rest =>
    if isWordChar ch then ch :: sanitizeAux false rest
    else if inRun then sanitizeAux true rest
    else '_' :: sanitizeAux true rest

/-- `str.replace(r'[^A-Za-z0-9_]+', '_', regex=True)` on one name. -/
def sanitizeName (s : String) : String := String.mk (sanitizeAux false s.data)

/-- Line 32 applied to all column names. -/
def sanitizeNames (t : Table) : Table := t.map (fun c => { c with name := sanitizeName c.name })

/-- Line 45: `df = df.applymap(clean_cell)` — every cell of every column. -/
def applymapClean (t : Table) : Table := t.map (fun c => { c with cells := c.cells.map clean_cell })

/-- Lines 28-45 of the source: the state of the frame entering type inference. -/
def stagePre (t : Table) : Table := applymapClean (sanitizeNames (dedupColumns (stripNames t)))

/-- `cell.isNa`: is this the missing marker? -/
def Cell.isNa : Cell → Bool
  | Cell.na => true
  | _ => false

/-- `series.notna().sum()`: number of non-missing cells. -/
def countNonNa (cells : List Cell) : ℕ := (cells.filter (fun x => !x.isNa)).length

/-- `pd.to_datetime(..., errors='coerce')` on one cell: missing stays missing,
strings and numbers parse or become missing, datetimes pass through. -/
def convCell (P : Parsers) : Cell → Cell
  | Cell.na => Cell.na
  | Cell.str s =>
    match P.parseDate s with
    | some d => Cell.date d
    | none => Cell.na
  | Cell.num q =>
    match P.numToDate q with
    | some d => Cell.date d
    | none => Cell.na
  | Cell.date d => Cell.date d

/-- The test of line 53: `non_null_original > 0 and
(non_null_converted / non_null_original) >= 0.8`. -/
def dateCond (P : Parsers) (c : Col) : Prop :=
  0 < countNonNa c.cells ∧
    (0.8 : ℚ) ≤ (countNonNa (c.cells.map (convCell P)) : ℚ) / (countNonNa c.cells : ℚ)

instance (P : Parsers) (c : Col) : Decidable (dateCond P c) :=
  decidable_of_iff
    (0 < countNonNa c.cells ∧
      4 * countNonNa c.cells ≤ 5 * countNonNa (c.cells.map (convCell P))) <| by
    unfold dateCond
    constructor
    · rintro ⟨h1, h2⟩
      refine ⟨h1, ?_⟩
      have hb : (0 : ℚ) < (countNonNa c.cells : ℚ) := by exact_mod_cast h1
      rw [le_div_iff₀ hb, show (0.8 : ℚ) = 4 / 5 by norm_num]
      have h2q : (4 : ℚ) * (countNonNa c.cells : ℚ) ≤
          5 * (countNonNa (c.cells.map (convCell P)) : ℚ) := by exact_mod_cast h2
      linarith
    · rintro ⟨h1, h2⟩
      refine ⟨h1, ?_⟩
      have hb : (0 : ℚ) < (countNonNa c.cells : ℚ) := by exact_mod_cast h1
      rw [le_div_iff₀ hb, show (0.8 : ℚ) = 4 / 5 by norm_num] at h2
      have h2q : (4 : ℚ) * (countNonNa c.cells : ℚ) ≤
          5 * (countNonNa (c.cells.map (convCell P)) : ℚ) := by linarith
      exact_mod_cast h2q

/-- Lines 49-54 for one column: object columns whose conversion passes the 80%
test are replaced by the converted values (dtype `datetime64`). -/
def dateStepCol (P : Parsers) (c : Col) : Col :=
  if c.dtype ≠ DType.obj then c
  else if dateCond P c then
    { name := c.name, dtype := DType.datetime, cells := c.cells.map (convCell P) }
  else c

/-- Lines 49-54: the datetime loop over all (object) columns. -/
def dateStage (P : Parsers) (t : Table) : Table := t.map (dateStepCol P)

/-- `pd.to_numeric` on one cell: missing passes (as `NaN`), numbers pass,
strings must parse, datetime objects make the whole conversion fail. -/
def tryNumCell (P : Parsers) : Cell → Option Cell
  | Cell.na => some Cell.na
  | Cell.num q => some (Cell.num q)
  | Cell.str s => (P.parseNum s).map Cell.num
  | Cell.date _ => none

/-- Sequence a cellwise partial conversion over a whole column: any single
failure makes the whole column conversion fail. -/
def optionMapList (f : α → Option β) : List α → Option (List β)
  | [] => some []
  | x :: xs =>
    match f x, optionMapList f xs with
    | some y, some ys => some (y :: ys)
    | _, _ => none

/-- Lines 57-58 for one column: `pd.to_numeric(df[col], errors='ignore')` —
either the whole column converts (dtype numeric) or it is left untouched. -/
def numStepCol (P : Parsers) (c : Col) : Col :=
  if c.dtype ≠ DType.obj then c
  else
    match optionMapList (tryNumCell P) c.cells with
    | some cells2 => { name := c.name, dtype := DType.numeric, cells := cells2 }
    | none => c

/-- Lines 56-58: the numeric loop over the remaining object columns. -/
def numericStage (P : Parsers) (t : Table) : Table := t.map (numStepCol P)

/-- Line 62: `df.dropna(axis=1, how='all')` — keep only columns having at
least one non-missing cell (a zero-row column is dropped, matching pandas,
where `how='all'` keeps a column iff its non-missing count is positive). -/
def dropAllNaCols (t : Table) : Table := t.filter (fun c => c.cells.any (fun x => !x.isNa))

/-- Number of rows of the frame (length of its columns). -/
def nRows : Table → ℕ
  | [] => 0
  | c :: _ => c.cells.length

/-- Row `j` of the table, reading each column at index `j`. -/
def rowAt (t : Table) (j : ℕ) : List Cell := t.map (fun c => c.cells.getD j Cell.na)

/-- The rows of the table, in order. -/
def tableRows (t : Table) : List (List Cell) := (List.range (nRows t)).map (rowAt t)

/-- Rebuild the columns of `t` from a new list of rows, keeping names and
dtypes; column `i` receives entry `i` of every row. -/
def withRowsAux (rs : List (List Cell)) : ℕ → Table → Table
  | _, [] => []
  | i, c :: cs =>
    { c with cells := rs.map (fun r => r.getD i Cell.na) } :: withRowsAux rs (i + 1) cs

/-- Replace the rows of `t` by `rs`. -/
def withRows (t : Table) (rs : List (List Cell)) : Table := withRowsAux rs 0 t

/-- `keep='first'` duplicate-row removal: a row equal to an earlier row
(missing markers compare equal, as in pandas hashing) is dropped. -/
def dedupRowsAux (seen : List (List Cell)) : List (List Cell) → List (List Cell)
  | [] => []
  | r :: rest =>
    if r ∈ seen then dedupRowsAux seen rest
    else r :: dedupRowsAux (r :: seen) rest

/-- Line 64: `df = df.drop_duplicates()`. -/
def drop_duplicates (t : Table) : Table := withRows t (dedupRowsAux [] (tableRows t))

/-- Does a row contain a missing cell? -/
def rowHasNa (r : List Cell) : Bool := r.any Cell.isNa

/-- Line 66: `df = df.dropna()` — drop each row containing a missing cell. -/
def dropna_rows (t : Table) : Table := withRows t ((tableRows t).filter (fun r => !rowHasNa r))

/-- Lines 49-66 of the source: type inference followed by pruning. -/
def stagePost (P : Parsers) (t : Table) : Table :=
  dropna_rows (drop_duplicates (dropAllNaCols (numericStage P (dateStage P t))))

/-- The situation in which the datetime loop raises: some object column's
(sanitised) name labels two or more columns, so `df[col]` is a DataFrame and
`pd.to_datetime` raises `ValueError` despite `errors='coerce'`. -/
def hasDupObjName (t : Table) : Bool :=
  t.any (fun c =>
    c.dtype == DType.obj && decide (2 ≤ (t.filter (fun c2 => c2.name == c.name)).length))

/-- The value the five stages compute column by column — what the cleaning
"legitimately yields" when no duplicated-name crash intervenes. -/
def clean_stages (P : Parsers) (t : Table) : Table := stagePost P (stagePre t)

/-- `clean_dataframe` (lines 5-68): the value returned to the caller.
Raises (`Except.error`) exactly when the datetime loop hits a duplicated
object-column name (see the header comment). -/
def clean_dataframe (P : Parsers) (t : Table) : Except Unit Table :=
  let t4 := stagePre t
  if hasDupObjName t4 then Except.error () else Except.ok (stagePost P t4)

/-- The caller's DataFrame after `clean_dataframe(df)` returns: line 28
stripped its column names in place; nothing else of it was mutated. -/
def inputAfterClean (t : Table) : Table := stripNames t

/-- The column names of a table, in order. -/
def colNames (t : Table) : List String := t.map (fun c => c.name)

/-- Result of the call as an `Option` (`none` = an exception was raised). -/
def okTable : Except Unit Table → Option Table
  | Except.ok u => some u
  | Except.error _ => none

/-- Decimal digits of a candidate number (used by the demo parsers). -/
def digitsToNat : List Char → Option ℕ
  | [] => none
  | ds =>
    if ds.all Char.isDigit then
      some (ds.foldl (fun a ch => 10 * a + (ch.toNat - 48)) 0)
    else none

/-- A small executable stand-in for `pd.to_datetime` format inference:
accepts exactly `YYYY-MM-DD` strings (which pandas also accepts); on every
concrete string used below its verdict coincides with pandas. -/
def simpleDateParse (s : String) : Option ℕ :=
  match s.data with
  | [y1, y2, y3, y4, h1, m1, m2, h2, d1, d2] =>
    if h1 == '-' && h2 == '-' && [y1, y2, y3, y4, m1, m2, d1, d2].all Char.isDigit then
      match digitsToNat [y1, y2, y3, y4], digitsToNat [m1, m2], digitsToNat [d1, d2] with
      | some y, some m, some d => some (y * 10000 + m * 100 + d)
      | _, _, _ => none
    else none
  | _ => none

/-- A small executable stand-in for `pd.to_numeric` on strings: optionally
signed decimal integers; agrees with pandas on the concrete strings below. -/
def simpleNumParse (s : String) : Option ℚ :=
  match s.data with
  | '-' :: rest => (digitsToNat rest).map (fun n => -(n : ℚ))
  | ds => (digitsToNat ds).map (fun n => (n : ℚ))

/-- Concrete parser bundle for counterexamples and witnesses. -/
def demoParsers : Parsers :=
  { parseDate := simpleDateParse
    numToDate := fun _ => none
    parseNum := simpleNumParse }

/-- Does the list start with a whitespace character? -/
def headIsSpace : List Char → Bool
  | [] => false
  | ch :: _ => isPySpace ch

/-- Does the list end with a whitespace character? -/
def lastIsSpace : List Char → Bool
  | [] => false
  | a :: t => isPySpace (t.getLastD a)

/-- Every whitespace character of the list is a plain blank. -/
def blankSpaces (l : List Char) : Bool := l.all (fun ch => !isPySpace ch || ch == ' ')

/-- No two adjacent whitespace characters. -/
def collapsedB : List Char → Bool
  | [] => true
  | [_] => true
  | a :: b :: t => !(isPySpace a && isPySpace b) && collapsedB (b :: t)

/-- Concrete input for C1: column names `"a b"`, `"a_b"` and `" "` (numeric
columns, so the duplicated-name crash of the datetime loop is not triggered). -/
def tableC1 : Table :=
  [⟨"a b", DType.numeric, [Cell.num 1]⟩,
   ⟨"a_b", DType.numeric, [Cell.num 2]⟩,
   ⟨" ", DType.numeric, [Cell.num 3]⟩]

/-- Concrete input for C2: two numeric columns whose missing cells are in
complementary rows, so both columns survive the all-missing drop while both
rows are removed by the missing-row drop. -/
def tableC2 : Table :=
  [⟨"a", DType.numeric, [Cell.num 1, Cell.na]⟩,
   ⟨"b", DType.numeric, [Cell.na, Cell.num 2]⟩]

/-- The 80% boundary column of the spec: 4 of 5 non-missing values parse. -/
def dateCol45 : Col :=
  ⟨"d", DType.obj, [Cell.str "2021-01-01", Cell.str "2021-01-02", Cell.str "2021-01-03",
    Cell.str "2021-01-04", Cell.str "x"]⟩

/-- Below the boundary: 3 of 5 non-missing values parse. -/
def dateCol35 : Col :=
  ⟨"d", DType.obj, [Cell.str "2021-01-01", Cell.str "2021-01-02", Cell.str "2021-01-03",
    Cell.str "x", Cell.str "y"]⟩

/-- Concrete input for C8: two object columns whose names collide after
sanitisation and whose only cells are the sentinel `"null"`, so the cleaning
stages legitimately yield an empty (zero-column) table, but `clean` raises in
the datetime loop instead of returning it. -/
def tableC8 : Table :=
  [⟨"a;b", DType.obj, [Cell.str "null"]⟩, ⟨"a_b", DType.obj, [Cell.str "null"]⟩]

/-- Concrete input for C10: a zero-row table whose two object headers collide
after sanitisation. -/
def tableC10 : Table := [⟨"a;b", DType.obj, []⟩, ⟨"a_b", DType.obj, []⟩]

/-- Concrete input for C9: four parseable dates and one whitespace-only cell
in the same text column. -/
def tableC9 : Table :=
  [⟨"d", DType.obj, [Cell.str "2021-01-01", Cell.str "2021-01-02", Cell.str "2021-01-03",
    Cell.str "2021-01-04", Cell.str "   "]⟩]

/-- Concrete input for C4: `"a b"` and `"a_b"` sanitise to the same name
(numeric dtype, so no crash), and the second pass then removes the duplicate
column the first pass created. -/
def tableC4 : Table :=
  [⟨"a b", DType.numeric, [Cell.num 1]⟩, ⟨"a_b", DType.numeric, [Cell.num 2]⟩]

example : simpleDateParse "2021-01-04" = some 20210104 := by decide
example : simpleDateParse "" = none := by decide
example : simpleNumParse "5" = some 5 := by decide
example : simpleNumParse "2021-01-01" = none := by decide
example : normalizeStr "a   b\t c" = "a b c" := by decide
example : clean_cell (Cell.str " error ") = Cell.na := by decide

/-! ### Properties of the whitespace normalisation -/

theorem lastIsSpace_cons_of_ne_nil (a : Char) (l : List Char) (h : l ≠ []) :
    lastIsSpace (a :: l) = lastIsSpace l := by
  cases l with
  | nil => exact absurd rfl h
  | cons b t => simp only [lastIsSpace, List.getLastD_cons]

theorem all_space_last (l : List Char) (h : l ≠ []) (ha : l.all isPySpace = true) :
    lastIsSpace l = true := by
  induction l with
  | nil => exact absurd rfl h
  | cons a t ih =>
    cases t with
    | nil => simpa [lastIsSpace, List.all_cons] using ha
    | cons b t2 =>
      rw [lastIsSpace_cons_of_ne_nil a _ (by simp)]
      exact ih (by simp) (by simp [List.all_cons] at ha ⊢; exact ha.2)

theorem collapseAux_true_head (l : List Char) : headIsSpace (collapseAux true l) = false := by
  induction l with
  | nil => rfl
  | cons ch rest ih =>
    cases h : isPySpace ch with
    | true => simpa [collapseAux, h] using ih
    | false => simp [collapseAux, h, headIsSpace]

theorem collapseAux_ne_nil (l : List Char) (b : Bool) (h : l.all isPySpace = false) :
    collapseAux b l ≠ [] := by
  induction l generalizing b with
  | nil => simp at h
  | cons ch rest ih =>
    cases hc : isPySpace ch with
    | false => simp [collapseAux, hc]
    | true =>
      have hr : rest.all isPySpace = false := by simpa [List.all_cons, hc] using h
      cases b with
      | true => simpa [collapseAux, hc] using ih true hr
      | false => simp [collapseAux, hc]

theorem collapseAux_head_false (l : List Char) (h : headIsSpace l = false) :
    headIsSpace (collapseAux false l) = false := by
  cases l with
  | nil => rfl
  | cons ch rest =>
    have : isPySpace ch = false := h
    simp [collapseAux, this, headIsSpace]

theorem collapseAux_last (l : List Char) (b : Bool) (h : lastIsSpace l = false) :
    lastIsSpace (collapseAux b l) = false := by
  induction l generalizing b with
  | nil => cases b <;> rfl
  | cons ch rest ih =>
    cases rest with
    | nil =>
      have hc : isPySpace ch = false := by simpa [lastIsSpace] using h
      cases b <;> simp [collapseAux, hc, lastIsSpace]
    | cons c2 t2 =>
      have hrest : lastIsSpace (c2 :: t2) = false := by
        rwa [lastIsSpace_cons_of_ne_nil ch _ (by simp)] at h
      have hne : collapseAux true (c2 :: t2) ≠ [] := by
        apply collapseAux_ne_nil
        cases hall : (c2 :: t2).all isPySpace with
        | false => rfl
        | true => exact absurd (all_space_last _ (by simp) hall) (by simp [hrest])
      have hne2 : collapseAux false (c2 :: t2) ≠ [] := by
        apply collapseAux_ne_nil
        cases hall : (c2 :: t2).all isPySpace with
        | false => rfl
        | true => exact absurd (all_space_last _ (by simp) hall) (by simp [hrest])
      cases hc : isPySpace ch with
      | false =>
        rw [show collapseAux b (ch :: c2 :: t2) = ch :: collapseAux false (c2 :: t2) by
          simp [collapseAux, hc]]
        rw [lastIsSpace_cons_of_ne_nil ch _ hne2]
        exact ih false hrest
      | true =>
        cases b with
        | true =>
          rw [show collapseAux true (ch :: c2 :: t2) = collapseAux true (c2 :: t2) by
            simp [collapseAux, hc]]
          exact ih true hrest
        | false =>
          rw [show collapseAux false (ch :: c2 :: t2) = ' ' :: collapseAux true (c2 :: t2) by
            simp [collapseAux, hc]]
          rw [lastIsSpace_cons_of_ne_nil ' ' _ hne]
          exact ih true hrest

theorem collapseAux_blank (l : List Char) (b : Bool) :
    blankSpaces (collapseAux b l) = true := by
  induction l generalizing b with
  | nil => cases b <;> rfl
  | cons ch rest ih =>
    cases hc : isPySpace ch with
    | false => simpa [collapseAux, hc, blankSpaces, List.all_cons] using ih false
    | true =>
      cases b with
      | true => simpa [collapseAux, hc] using ih true
      | false => simpa [collapseAux, hc, blankSpaces, List.all_cons] using ih true

theorem collapsedB_cons (a : Char) (l : List Char) (hhead : headIsSpace l = false ∨ isPySpace a = false)
    (hl : collapsedB l = true) : collapsedB (a :: l) = true := by
  cases l with
  | nil => rfl
  | cons b t =>
    have hb2 : isPySpace a = false ∨ isPySpace b = false := by
      rcases hhead with h | h
      · right; simpa [headIsSpace] using h
      · left; exact h
    have hb : (!(isPySpace a && isPySpace b)) = true := by
      rcases hb2 with h | h <;> simp [h]
    simp [collapsedB, hb, hl]

theorem collapseAux_collapsed (l : List Char) (b : Bool) :
    collapsedB (collapseAux b l) = true := by
  induction l generalizing b with
  | nil => cases b <;> rfl
  | cons ch rest ih =>
    cases hc : isPySpace ch with
    | false =>
      rw [show collapseAux b (ch :: rest) = ch :: collapseAux false rest by simp [collapseAux, hc]]
      exact collapsedB_cons _ _ (Or.inr hc) (ih false)
    | true =>
      cases b with
      | true =>
        rw [show collapseAux true (ch :: rest) = collapseAux true rest by simp [collapseAux, hc]]
        exact ih true
      | false =>
        rw [show collapseAux false (ch :: rest) = ' ' :: collapseAux true rest by
          simp [collapseAux, hc]]
        exact collapsedB_cons _ _ (Or.inl (collapseAux_true_head rest)) (ih true)

theorem collapseAux_filter (l : List Char) (b : Bool) :
    (collapseAux b l).filter (fun ch => !isPySpace ch) = l.filter (fun ch => !isPySpace ch) := by
  induction l generalizing b with
  | nil => cases b <;> rfl
  | cons ch rest ih =>
    cases hc : isPySpace ch with
    | false => simp [collapseAux, hc, List.filter_cons, ih false]
    | true =>
      cases b with
      | true => simp [collapseAux, hc, List.filter_cons, ih true]
      | false =>
        rw [show collapseAux false (ch :: rest) = ' ' :: collapseAux true rest by
          simp [collapseAux, hc]]
        rw [List.filter_cons, List.filter_cons]
        have h1 : isPySpace ' ' = true := by decide
        simp [h1, hc, ih true]

theorem collapseAux_id (l : List Char) (b : Bool) (hbl : blankSpaces l = true)
    (hco : collapsedB l = true) (hb : b = true → headIsSpace l = false) :
    collapseAux b l = l := by
  induction l generalizing b with
  | nil => cases b <;> rfl
  | cons ch rest ih =>
    have hblr : blankSpaces rest = true := by
      simp only [blankSpaces, List.all_cons, Bool.and_eq_true] at hbl
      exact hbl.2
    have hcor : collapsedB rest = true := by
      cases rest with
      | nil => rfl
      | cons c2 t2 => simp [collapsedB] at hco; exact hco.2
    cases hc : isPySpace ch with
    | false =>
      rw [show collapseAux b (ch :: rest) = ch :: collapseAux false rest by simp [collapseAux, hc]]
      rw [ih false hblr hcor (by simp)]
    | true =>
      have hch : ch = ' ' := by
        simp only [blankSpaces, List.all_cons, Bool.and_eq_true] at hbl
        have h1 := hbl.1
        rw [hc] at h1
        simpa using h1
      cases b with
      | true => exact absurd (hb rfl) (by simp [headIsSpace, hc])
      | false =>
        rw [show collapseAux false (ch :: rest) = ' ' :: collapseAux true rest by
          simp [collapseAux, hc]]
        have hresthead : headIsSpace rest = false := by
          cases rest with
          | nil => rfl
          | cons c2 t2 =>
            simp [collapsedB, hc] at hco
            simpa [headIsSpace] using hco.1
        rw [ih true hblr hcor (fun _ => hresthead), hch]

theorem trimLeft_head (l : List Char) : headIsSpace (trimLeft l) = false := by
  induction l with
  | nil => rfl
  | cons ch rest ih =>
    cases hc : isPySpace ch with
    | true => simpa [trimLeft, List.dropWhile_cons, hc] using ih
    | false => simp [trimLeft, List.dropWhile_cons, hc, headIsSpace]

theorem trimLeft_filter (l : List Char) :
    (trimLeft l).filter (fun ch => !isPySpace ch) = l.filter (fun ch => !isPySpace ch) := by
  induction l with
  | nil => rfl
  | cons ch rest ih =>
    cases hc : isPySpace ch with
    | true =>
      have hstep : trimLeft (ch :: rest) = trimLeft rest := by
        simp [trimLeft, List.dropWhile_cons, hc]
      rw [hstep, ih, List.filter_cons]
      simp [hc]
    | false => simp [trimLeft, List.dropWhile_cons, hc, List.filter_cons]

theorem trimLeft_id (l : List Char) (h : headIsSpace l = false) : trimLeft l = l := by
  cases l with
  | nil => rfl
  | cons ch rest =>
    have : isPySpace ch = false := h
    simp [trimLeft, List.dropWhile_cons, this]

theorem trimRight_cons (a : Char) (t : List Char) :
    trimRight (a :: t) =
      match trimRight t with
      | [] => if isPySpace a then [] else [a]
      | r => a :: r := rfl

theorem trimRight_shape (a : Char) (t : List Char) :
    trimRight (a :: t) = [] ∨ ∃ r, trimRight (a :: t) = a :: r := by
  cases h : trimRight t with
  | nil =>
    cases hc : isPySpace a with
    | true => left; simp [trimRight, h, hc]
    | false => right; exact ⟨[], by simp [trimRight, h, hc]⟩
  | cons x xs => right; exact ⟨x :: xs, by simp [trimRight, h]⟩

theorem trimRight_head (l : List Char) (h : headIsSpace l = false) :
    headIsSpace (trimRight l) = false := by
  cases l with
  | nil => rfl
  | cons a t =>
    rcases trimRight_shape a t with hs | ⟨r, hs⟩
    · simp [hs, headIsSpace]
    · rw [hs]; exact h

theorem trimRight_last (l : List Char) : lastIsSpace (trimRight l) = false := by
  induction l with
  | nil => rfl
  | cons a t ih =>
    cases h : trimRight t with
    | nil =>
      cases hc : isPySpace a with
      | true => simp [trimRight, h, hc, lastIsSpace]
      | false => simp [trimRight, h, hc, lastIsSpace]
    | cons x xs =>
      rw [show trimRight (a :: t) = a :: x :: xs by simp [trimRight, h]]
      rw [lastIsSpace_cons_of_ne_nil a _ (by simp)]
      rw [← h]; exact ih

theorem trimRight_filter (l : List Char) :
    (trimRight l).filter (fun ch => !isPySpace ch) = l.filter (fun ch => !isPySpace ch) := by
  induction l with
  | nil => rfl
  | cons a t ih =>
    cases h : trimRight t with
    | nil =>
      have ht : t.filter (fun ch => !isPySpace ch) = [] := by rw [← ih, h]; rfl
      cases hc : isPySpace a with
      | true => simp [trimRight, h, hc, List.filter_cons, ht]
      | false => simp [trimRight, h, hc, List.filter_cons, ht]
    | cons x xs =>
      have hs : trimRight (a :: t) = a :: trimRight t := by
        rw [h]
        simp [trimRight, h]
      rw [hs, List.filter_cons, List.filter_cons, ih]

theorem trimRight_id (l : List Char) (h : lastIsSpace l = false) : trimRight l = l := by
  induction l with
  | nil => rfl
  | cons a t ih =>
    cases t with
    | nil =>
      have : isPySpace a = false := by simpa [lastIsSpace] using h
      simp [trimRight, this]
    | cons b t2 =>
      have ht : trimRight (b :: t2) = b :: t2 :=
        ih (by rwa [lastIsSpace_cons_of_ne_nil a _ (by simp)] at h)
      rw [trimRight_cons, ht]

theorem trimChars_head (l : List Char) : headIsSpace (trimChars l) = false :=
  trimRight_head _ (trimLeft_head l)

theorem trimChars_last (l : List Char) : lastIsSpace (trimChars l) = false :=
  trimRight_last _

theorem trimChars_filter (l : List Char) :
    (trimChars l).filter (fun ch => !isPySpace ch) = l.filter (fun ch => !isPySpace ch) := by
  unfold trimChars
  rw [trimRight_filter, trimLeft_filter]

theorem trimChars_id (l : List Char) (hh : headIsSpace l = false) (hl : lastIsSpace l = false) :
    trimChars l = l := by
  unfold trimChars
  rw [trimLeft_id l hh, trimRight_id l hl]

theorem normalizeChars_head (l : List Char) : headIsSpace (normalizeChars l) = false :=
  collapseAux_head_false _ (trimChars_head l)

theorem normalizeChars_last (l : List Char) : lastIsSpace (normalizeChars l) = false :=
  collapseAux_last _ _ (trimChars_last l)

theorem normalizeChars_blank (l : List Char) : blankSpaces (normalizeChars l) = true :=
  collapseAux_blank _ _

theorem normalizeChars_collapsed (l : List Char) : collapsedB (normalizeChars l) = true :=
  collapseAux_collapsed _ _

theorem normalizeChars_filter (l : List Char) :
    (normalizeChars l).filter (fun ch => !isPySpace ch) = l.filter (fun ch => !isPySpace ch) := by
  unfold normalizeChars
  rw [collapseAux_filter, trimChars_filter]

theorem normalizeChars_idem (l : List Char) :
    normalizeChars (normalizeChars l) = normalizeChars l := by
  show collapseAux false (trimChars (normalizeChars l)) = normalizeChars l
  rw [trimChars_id _ (normalizeChars_head l) (normalizeChars_last l)]
  exact collapseAux_id _ _ (normalizeChars_blank l) (normalizeChars_collapsed l) (by intro h; cases h)

theorem normalizeStr_idem (s : String) : normalizeStr (normalizeStr s) = normalizeStr s := by
  show String.mk (normalizeChars (String.mk (normalizeChars s.data)).data) = _
  rw [show (String.mk (normalizeChars s.data)).data = normalizeChars s.data from rfl]
  rw [normalizeChars_idem]
  rfl

/-- **C7.** For every textual cell, `clean_cell` strips leading/trailing
whitespace, collapses every internal whitespace run to a single space, and
replaces the cell with the missing marker exactly when the result
case-insensitively equals `"null"`, `"unknown"` or `"error"`; non-textual
cells pass through unchanged.  The normalised string has no leading/trailing
whitespace, every whitespace character in it is a single blank, no two
whitespace characters are adjacent, and its non-whitespace characters are
exactly those of the original, in order.  The spec's concrete instances
(`"NULL"`, `"Unknown"`, `" error "` become missing, `"nullable"` does not,
`"a   b\t c"` becomes `"a b c"`) are included. -/
theorem claim_C7_cell_normalizer :
    (∀ s : String,
        clean_cell (Cell.str s) =
          (if lowerStr (normalizeStr s) ∈ sentinels then Cell.na else Cell.str (normalizeStr s))) ∧
    (∀ s : String,
        headIsSpace (normalizeStr s).data = false ∧
        lastIsSpace (normalizeStr s).data = false ∧
        blankSpaces (normalizeStr s).data = true ∧
        collapsedB (normalizeStr s).data = true ∧
        (normalizeStr s).data.filter (fun ch => !isPySpace ch) =
          s.data.filter (fun ch => !isPySpace ch)) ∧
    (∀ q : ℚ, clean_cell (Cell.num q) = Cell.num q) ∧
    (∀ d : ℕ, clean_cell (Cell.date d) = Cell.date d) ∧
    clean_cell Cell.na = Cell.na ∧
    clean_cell (Cell.str "NULL") = Cell.na ∧
    clean_cell (Cell.str "Unknown") = Cell.na ∧
    clean_cell (Cell.str " error ") = Cell.na ∧
    clean_cell (Cell.str "nullable") = Cell.str "nullable" ∧
    clean_cell (Cell.str "a   b\t c") = Cell.str "a b c" := by
  refine ⟨fun s => rfl, fun s => ?_, fun q => rfl, fun d => rfl, rfl, ?_, ?_, ?_, ?_, ?_⟩
  · exact ⟨normalizeChars_head s.data, normalizeChars_last s.data,
      normalizeChars_blank s.data, normalizeChars_collapsed s.data,
      normalizeChars_filter s.data⟩
  · decide
  · decide
  · decide
  · decide
  · decide

theorem clean_cell_idem (x : Cell) : clean_cell (clean_cell x) = clean_cell x := by
  cases x with
  | str s =>
    show clean_cell (clean_cell (Cell.str s)) = clean_cell (Cell.str s)
    unfold clean_cell
    by_cases h : lowerStr (normalizeStr s) ∈ sentinels
    · simp [h]
    · simp only [h, if_false]
      rw [normalizeStr_idem]
      simp [h]
  | na => rfl
  | num q => rfl
  | date d => rfl

/-! ### Column names through the pipeline (claim C1) -/

theorem sanitizeAux_chars (l : List Char) (b : Bool) (ch : Char)
    (h : ch ∈ sanitizeAux b l) : isWordChar ch = true := by
  induction l generalizing b with
  | nil => cases b <;> simp [sanitizeAux] at h
  | cons a t ih =>
    cases hw : isWordChar a with
    | true =>
      rw [show sanitizeAux b (a :: t) = a :: sanitizeAux false t by simp [sanitizeAux, hw]] at h
      rcases List.mem_cons.mp h with h1 | h1
      · rwa [h1]
      · exact ih false h1
    | false =>
      cases b with
      | true =>
        rw [show sanitizeAux true (a :: t) = sanitizeAux true t by simp [sanitizeAux, hw]] at h
        exact ih true h
      | false =>
        rw [show sanitizeAux false (a :: t) = '_' :: sanitizeAux true t by
          simp [sanitizeAux, hw]] at h
        rcases List.mem_cons.mp h with h1 | h1
        · rw [h1]; rfl
        · exact ih true h1

theorem sanitizeName_chars (s : String) (ch : Char) (h : ch ∈ (sanitizeName s).data) :
    isWordChar ch = true :=
  sanitizeAux_chars s.data false ch h

theorem dateStepCol_name (P : Parsers) (c : Col) : (dateStepCol P c).name = c.name := by
  unfold dateStepCol
  split
  · rfl
  · split <;> rfl

theorem dateStepCol_dtype_of_ne_obj (P : Parsers) (c : Col) (h : c.dtype ≠ DType.obj) :
    dateStepCol P c = c := by
  unfold dateStepCol
  simp [h]

theorem numStepCol_name (P : Parsers) (c : Col) : (numStepCol P c).name = c.name := by
  unfold numStepCol
  split
  · rfl
  · split <;> rfl

theorem withRowsAux_mem (rs : List (List Cell)) (t : Table) (i : ℕ) (c : Col)
    (h : c ∈ withRowsAux rs i t) :
    ∃ c0 ∈ t, c.name = c0.name ∧ c.dtype = c0.dtype ∧
      ∃ j, i ≤ j ∧ j < i + t.length ∧ c.cells = rs.map (fun r => r.getD j Cell.na) := by
  induction t generalizing i with
  | nil => simp [withRowsAux] at h
  | cons c1 cs ih =>
    rw [withRowsAux] at h
    rcases List.mem_cons.mp h with h1 | h1
    · exact ⟨c1, List.mem_cons_self _ _, by rw [h1], by rw [h1], i, le_refl i,
        by simp, by rw [h1]⟩
    · rcases ih (i + 1) h1 with ⟨c0, hc0, hn, hd, j, hj1, hj2, hcells⟩
      exact ⟨c0, List.mem_cons_of_mem _ hc0, hn, hd, j, by omega,
        by simp only [List.length_cons]; omega, hcells⟩

theorem withRows_mem (t : Table) (rs : List (List Cell)) (c : Col) (h : c ∈ withRows t rs) :
    ∃ c0 ∈ t, c.name = c0.name ∧ c.dtype = c0.dtype ∧
      ∃ j, j < t.length ∧ c.cells = rs.map (fun r => r.getD j Cell.na) := by
  rcases withRowsAux_mem rs t 0 c h with ⟨c0, hc0, hn, hd, j, -, hj2, hcells⟩
  exact ⟨c0, hc0, hn, hd, j, by simpa using hj2, hcells⟩

theorem stagePost_name_origin (P : Parsers) (t : Table) (c : Col) (h : c ∈ stagePost P t) :
    ∃ c0 ∈ t, c.name = c0.name := by
  unfold stagePost dropna_rows at h
  rcases withRows_mem _ _ _ h with ⟨c1, hc1, hn1, -, -⟩
  unfold drop_duplicates at hc1
  rcases withRows_mem _ _ _ hc1 with ⟨c2, hc2, hn2, -, -⟩
  have hc3 : c2 ∈ numericStage P (dateStage P t) := (List.mem_filter.mp hc2).1
  rcases List.mem_map.mp hc3 with ⟨c4, hc4, hc4e⟩
  rcases List.mem_map.mp hc4 with ⟨c5, hc5, hc5e⟩
  refine ⟨c5, hc5, ?_⟩
  rw [hn1, hn2, ← hc4e, numStepCol_name, ← hc5e, dateStepCol_name]

theorem stagePre_names (t : Table) (c : Col) (h : c ∈ stagePre t) :
    ∀ ch ∈ c.name.data, isWordChar ch = true := by
  unfold stagePre applymapClean at h
  rcases List.mem_map.mp h with ⟨c1, hc1, hc1e⟩
  unfold sanitizeNames at hc1
  rcases List.mem_map.mp hc1 with ⟨c2, -, hc2e⟩
  intro ch hch
  apply sanitizeName_chars c2.name ch
  rw [← hc1e] at hch
  simp only at hch
  rw [← hc2e] at hch
  exact hch

theorem clean_dataframe_ok_iff (P : Parsers) (t u : Table) :
    clean_dataframe P t = Except.ok u ↔
      hasDupObjName (stagePre t) = false ∧ u = stagePost P (stagePre t) := by
  unfold clean_dataframe
  cases h : hasDupObjName (stagePre t) with
  | true => simp [h]
  | false => simp [h, eq_comm]

theorem okTable_eq_some (e : Except Unit Table) (u : Table) (h : okTable e = some u) :
    e = Except.ok u := by
  cases e with
  | ok v =>
    simp only [okTable, Option.some.injEq] at h
    rw [h]
  | error v => simp [okTable] at h

/-- Column names of the value computed by a successful `clean_dataframe` call. -/
theorem clean_names_wordChar (P : Parsers) (t u : Table) (h : clean_dataframe P t = Except.ok u) :
    ∀ c ∈ u, ∀ ch ∈ c.name.data, isWordChar ch = true := by
  rcases (clean_dataframe_ok_iff P t u).mp h with ⟨-, hu⟩
  intro c hc
  rw [hu] at hc
  rcases stagePost_name_origin P (stagePre t) c hc with ⟨c0, hc0, hn⟩
  rw [hn]
  exact stagePre_names t c0 hc0

/-- **C1, counterexample.**  Because duplicate columns are removed *before*
special characters are replaced (lines 30/32), `clean` can output duplicate
names (`"a b"` and `"a_b"` both sanitise to `"a_b"`), and a whitespace-only
name sanitises to the empty string, which does not match `^[A-Za-z0-9_]+$`.
So the output names are neither pairwise distinct nor always non-empty. -/
theorem claim_C1_counterexample :
    (okTable (clean_dataframe demoParsers tableC1)).map colNames = some ["a_b", "a_b", ""] ∧
    ¬ (["a_b", "a_b", ""] : List String).Nodup ∧
    ("" : String).data = [] := by
  refine ⟨by decide, by decide, rfl⟩

/-- **C1, amended.**  For every input table, every column name of the table
returned by `clean` consists exclusively of letters, digits and underscores
(in particular it contains no whitespace and no special characters), but it
may be empty and the output names need not be pairwise distinct. -/
theorem claim_C1_amended (P : Parsers) (t u : Table) (h : clean_dataframe P t = Except.ok u) :
    ∀ c ∈ u, ∀ ch ∈ c.name.data, isWordChar ch = true :=
  clean_names_wordChar P t u h

/-- Witness for C1 on a concrete run: the output name `"Name"` exists and its
first character is a word character, by the amended theorem. -/
theorem claim_C1_witness :
    clean_dataframe demoParsers [⟨"Name ", DType.obj, [Cell.str "x"]⟩] =
      Except.ok [⟨"Name", DType.obj, [Cell.str "x"]⟩] ∧
    isWordChar 'N' = true := by
  have h : clean_dataframe demoParsers [⟨"Name ", DType.obj, [Cell.str "x"]⟩] =
      Except.ok [⟨"Name", DType.obj, [Cell.str "x"]⟩] :=
    okTable_eq_some _ _ (by decide)
  refine ⟨h, ?_⟩
  exact claim_C1_amended demoParsers [⟨"Name ", DType.obj, [Cell.str "x"]⟩] _ h
    ⟨"Name", DType.obj, [Cell.str "x"]⟩ (by decide) 'N' (by decide)

/-! ### Rows machinery (claims C2, C4, C9, C10) -/

theorem withRowsAux_length (rs : List (List Cell)) (t : Table) (i : ℕ) :
    (withRowsAux rs i t).length = t.length := by
  induction t generalizing i with
  | nil => rfl
  | cons c cs ih => simp [withRowsAux, ih]

theorem withRows_length (t : Table) (rs : List (List Cell)) :
    (withRows t rs).length = t.length :=
  withRowsAux_length rs t 0

theorem withRowsAux_getElem (rs : List (List Cell)) (t : Table) (i k : ℕ)
    (hk : k < (withRowsAux rs i t).length) (hk2 : k < t.length) :
    (withRowsAux rs i t)[k] = { t[k] with cells := rs.map (fun r => r.getD (i + k) Cell.na) } := by
  induction t generalizing i k with
  | nil => simp at hk2
  | cons c cs ih =>
    cases k with
    | zero => simp [withRowsAux]
    | succ k2 =>
      have h1 : k2 < (withRowsAux rs (i + 1) cs).length := by
        rw [withRowsAux_length]
        simpa using hk2
      have h2 : k2 < cs.length := by simpa using hk2
      have hrec := ih (i + 1) k2 h1 h2
      simp only [withRowsAux, List.getElem_cons_succ]
      rw [hrec]
      rw [show i + 1 + k2 = i + (k2 + 1) by omega]

theorem withRows_getElem (t : Table) (rs : List (List Cell)) (k : ℕ)
    (hk : k < (withRows t rs).length) (hk2 : k < t.length) :
    (withRows t rs)[k] = { t[k] with cells := rs.map (fun r => r.getD k Cell.na) } := by
  have := withRowsAux_getElem rs t 0 k hk hk2
  simpa using this

theorem nRows_withRows (t : Table) (rs : List (List Cell)) (ht : t ≠ []) :
    nRows (withRows t rs) = rs.length := by
  cases t with
  | nil => exact absurd rfl ht
  | cons c cs => simp [withRows, withRowsAux, nRows]

theorem rowAt_length (t : Table) (j : ℕ) : (rowAt t j).length = t.length := by
  simp [rowAt]

theorem rowAt_getElem (t : Table) (j k : ℕ) (hk : k < (rowAt t j).length) (hk2 : k < t.length) :
    (rowAt t j)[k] = (t[k]).cells.getD j Cell.na := by
  simp [rowAt]

theorem tableRows_length (t : Table) : (tableRows t).length = nRows t := by
  simp [tableRows]

theorem tableRows_getElem (t : Table) (j : ℕ) (hj : j < (tableRows t).length) :
    (tableRows t)[j] = rowAt t j := by
  simp [tableRows]

theorem tableRows_mem (t : Table) (r : List Cell) (h : r ∈ tableRows t) :
    ∃ j < nRows t, r = rowAt t j := by
  unfold tableRows at h
  rcases List.mem_map.mp h with ⟨j, hj, hje⟩
  exact ⟨j, List.mem_range.mp hj, hje.symm⟩

theorem tableRows_mem_length (t : Table) (r : List Cell) (h : r ∈ tableRows t) :
    r.length = t.length := by
  rcases tableRows_mem t r h with ⟨j, -, hje⟩
  rw [hje, rowAt_length]

theorem tableRows_withRows (t : Table) (rs : List (List Cell)) (ht : t ≠ [])
    (h : ∀ r ∈ rs, r.length = t.length) : tableRows (withRows t rs) = rs := by
  have hn : nRows (withRows t rs) = rs.length := nRows_withRows t rs ht
  apply List.ext_getElem
  · rw [tableRows_length, hn]
  · intro j h1 h2
    rw [tableRows_getElem _ _ h1]
    apply List.ext_getElem
    · rw [rowAt_length, withRows_length]
      exact (h _ (List.getElem_mem h2)).symm
    · intro k hk1 hk2
      have hkr : k < (withRows t rs).length := by rwa [rowAt_length] at hk1
      have hkt : k < t.length := by rwa [withRows_length] at hkr
      rw [rowAt_getElem _ _ _ hk1 hkr, withRows_getElem t rs k hkr hkt]
      simp only
      have hmap : j < (rs.map (fun r => r.getD k Cell.na)).length := by simpa using h2
      rw [List.getD_eq_getElem _ _ hmap, List.getElem_map]
      rw [List.getD_eq_getElem _ _ hk2]

theorem withRows_tableRows (t : Table) (hal : ∀ c ∈ t, c.cells.length = nRows t) :
    withRows t (tableRows t) = t := by
  apply List.ext_getElem
  · rw [withRows_length]
  · intro k h1 h2
    rw [withRows_getElem t _ k h1 h2]
    have hcl : (t[k]).cells.length = nRows t := hal _ (List.getElem_mem h2)
    have hcells : (tableRows t).map (fun r => r.getD k Cell.na) = (t[k]).cells := by
      apply List.ext_getElem
      · rw [List.length_map, tableRows_length, hcl]
      · intro j hj1 hj2
        have hjt : j < (tableRows t).length := by simpa using hj1
        have hjn : j < nRows t := by rwa [tableRows_length] at hjt
        rw [List.getElem_map, tableRows_getElem t j hjt]
        have hkrow : k < (rowAt t j).length := by rw [rowAt_length]; exact h2
        rw [List.getD_eq_getElem _ _ hkrow, rowAt_getElem t j k hkrow h2]
        rw [List.getD_eq_getElem _ _ (by rw [hcl]; exact hjn)]
    rw [hcells]

theorem dedupRowsAux_subset (l seen : List (List Cell)) (r : List Cell)
    (h : r ∈ dedupRowsAux seen l) : r ∈ l := by
  induction l generalizing seen with
  | nil => simp [dedupRowsAux] at h
  | cons r0 rest ih =>
    rw [dedupRowsAux] at h
    by_cases h0 : r0 ∈ seen
    · simp only [h0, if_true] at h
      exact List.mem_cons_of_mem _ (ih seen h)
    · simp only [h0, if_false] at h
      rcases List.mem_cons.mp h with h1 | h1
      · exact h1 ▸ List.mem_cons_self _ _
      · exact List.mem_cons_of_mem _ (ih (r0 :: seen) h1)

theorem dedupRowsAux_not_mem_seen (l seen : List (List Cell)) (r : List Cell)
    (h : r ∈ dedupRowsAux seen l) : r ∉ seen := by
  induction l generalizing seen with
  | nil => simp [dedupRowsAux] at h
  | cons r0 rest ih =>
    rw [dedupRowsAux] at h
    by_cases h0 : r0 ∈ seen
    · simp only [h0, if_true] at h
      exact ih seen h
    · simp only [h0, if_false] at h
      rcases List.mem_cons.mp h with h1 | h1
      · rw [h1]; exact h0
      · intro hmem
        exact ih (r0 :: seen) h1 (List.mem_cons_of_mem _ hmem)

theorem dedupRowsAux_nodup (l seen : List (List Cell)) : (dedupRowsAux seen l).Nodup := by
  induction l generalizing seen with
  | nil => exact List.nodup_nil
  | cons r0 rest ih =>
    rw [dedupRowsAux]
    by_cases h0 : r0 ∈ seen
    · simp only [h0, if_true]
      exact ih seen
    · simp only [h0, if_false]
      refine List.nodup_cons.mpr ⟨?_, ih (r0 :: seen)⟩
      intro hmem
      exact dedupRowsAux_not_mem_seen rest (r0 :: seen) r0 hmem (List.mem_cons_self _ _)

theorem map_eq_self_of_fix {α : Type} (l : List α) (f : α → α) (h : ∀ x ∈ l, f x = x) :
    l.map f = l := by
  induction l with
  | nil => rfl
  | cons a t ih =>
    rw [List.map_cons, h a (List.mem_cons_self _ _), ih (fun x hx => h x (List.mem_cons_of_mem _ hx))]

theorem not_na_of_rowHasNa_false (r : List Cell) (x : Cell) (h : rowHasNa r = false)
    (hx : x ∈ r) : x ≠ Cell.na := by
  intro he
  unfold rowHasNa at h
  rw [List.any_eq_false] at h
  have := h x hx
  rw [he] at this
  exact absurd this (by simp [Cell.isNa])

theorem drop_duplicates_rows (t : Table) (ht : t ≠ []) :
    tableRows (drop_duplicates t) = dedupRowsAux [] (tableRows t) := by
  apply tableRows_withRows t _ ht
  intro r hr
  exact tableRows_mem_length t r (dedupRowsAux_subset _ _ r hr)

theorem dropna_rows_rows (t : Table) (ht : t ≠ []) :
    tableRows (dropna_rows t) = (tableRows t).filter (fun r => !rowHasNa r) := by
  apply tableRows_withRows t _ ht
  intro r hr
  exact tableRows_mem_length t r (List.mem_filter.mp hr).1

theorem stagePost_rows (P : Parsers) (v : Table) :
    (tableRows (stagePost P v)).Nodup ∧
    ∀ r ∈ tableRows (stagePost P v), rowHasNa r = false := by
  unfold stagePost
  set w := dropAllNaCols (numericStage P (dateStage P v)) with hw
  by_cases hwe : w = []
  · rw [hwe]
    exact ⟨List.nodup_nil, by intro r hr; simp [drop_duplicates, dropna_rows, withRows,
      withRowsAux, tableRows, nRows] at hr⟩
  · have hu1 : drop_duplicates w ≠ [] := by
      intro h
      have := withRows_length w (dedupRowsAux [] (tableRows w))
      rw [show withRows w (dedupRowsAux [] (tableRows w)) = drop_duplicates w from rfl, h] at this
      exact hwe (List.length_eq_zero.mp this.symm)
    have hrows1 : tableRows (drop_duplicates w) = dedupRowsAux [] (tableRows w) :=
      drop_duplicates_rows w hwe
    have hrows2 : tableRows (dropna_rows (drop_duplicates w)) =
        (tableRows (drop_duplicates w)).filter (fun r => !rowHasNa r) :=
      dropna_rows_rows _ hu1
    constructor
    · rw [hrows2, hrows1]
      exact (dedupRowsAux_nodup _ _).filter _
    · intro r hr
      rw [hrows2] at hr
      have := (List.mem_filter.mp hr).2
      simpa using this

theorem stagePost_cells (P : Parsers) (v : Table) :
    ∀ c ∈ stagePost P v, (∀ x ∈ c.cells, x ≠ Cell.na) ∧
      c.cells.length = nRows (stagePost P v) := by
  intro c hc
  unfold stagePost at hc ⊢
  set w := dropAllNaCols (numericStage P (dateStage P v)) with hw
  set u1 := drop_duplicates w with hu1
  set rs2 := (tableRows u1).filter (fun r => !rowHasNa r) with hrs2
  have hcw : c ∈ withRows u1 rs2 := hc
  have hu1ne : u1 ≠ [] := by
    intro h
    rw [h] at hcw
    simp [withRows, withRowsAux] at hcw
  rcases withRows_mem u1 rs2 c hcw with ⟨c0, hc0, -, -, j, hj, hcells⟩
  constructor
  · intro x hx
    rw [hcells] at hx
    rcases List.mem_map.mp hx with ⟨r, hr, hre⟩
    have hrlen : r.length = u1.length :=
      tableRows_mem_length u1 r (List.mem_filter.mp hr).1
    have hjr : j < r.length := by rw [hrlen]; exact hj
    rw [← hre, List.getD_eq_getElem _ _ hjr]
    have hnoNa : rowHasNa r = false := by
      have := (List.mem_filter.mp hr).2
      simpa using this
    exact not_na_of_rowHasNa_false r _ hnoNa (List.getElem_mem hjr)
  · rw [hcells, List.length_map]
    exact (nRows_withRows u1 rs2 hu1ne).symm

/-- **C2, counterexample.**  On `tableC2` the output has two columns and zero
rows; every cell of each output column is (vacuously) missing, exactly the
reading of "all cells missing" that pandas' `dropna(axis=1, how='all')` itself
uses (it drops zero-row columns, see C10).  So "no output column all of whose
cells are missing" fails for outputs with columns but no rows. -/
theorem claim_C2_counterexample :
    okTable (clean_dataframe demoParsers tableC2) =
      some [⟨"a", DType.numeric, []⟩, ⟨"b", DType.numeric, []⟩] ∧
    ([⟨"a", DType.numeric, []⟩, ⟨"b", DType.numeric, []⟩] : Table) ≠ [] ∧
    (Col.mk "a" DType.numeric []).cells.all Cell.isNa = true ∧
    (Col.mk "b" DType.numeric []).cells.all Cell.isNa = true := by
  refine ⟨by decide, by decide, by decide, by decide⟩

/-- **C2, amended.**  For every input table, in the table returned by `clean`
no row contains a missing cell, no two rows are identical, and every column
that has at least one cell contains a non-missing cell (so the only columns
"all of whose cells are missing" are the zero-row ones, which arise exactly
when every row was pruned). -/
theorem claim_C2_amended (P : Parsers) (t u : Table) (h : clean_dataframe P t = Except.ok u) :
    (∀ c ∈ u, c.cells ≠ [] → ∃ x ∈ c.cells, x ≠ Cell.na) ∧
    (∀ r ∈ tableRows u, ∀ x ∈ r, x ≠ Cell.na) ∧
    (tableRows u).Nodup := by
  rcases (clean_dataframe_ok_iff P t u).mp h with ⟨-, hu⟩
  subst hu
  refine ⟨?_, ?_, (stagePost_rows P (stagePre t)).1⟩
  · intro c hc hne
    rcases stagePost_cells P (stagePre t) c hc with ⟨hnona, -⟩
    cases hcl : c.cells with
    | nil => exact absurd hcl hne
    | cons x xs =>
      have hx : x ∈ c.cells := by rw [hcl]; exact List.mem_cons_self _ _
      exact ⟨x, List.mem_cons_self _ _, hnona x hx⟩
  · intro r hr x hx
    have hnoNa := (stagePost_rows P (stagePre t)).2 r hr
    exact not_na_of_rowHasNa_false r x hnoNa hx

/-- Witness for C2 on a concrete run (a duplicate row and a missing-valued
row are pruned; the surviving rows are distinct and contain no missing cell). -/
theorem claim_C2_witness :
    clean_dataframe demoParsers [⟨"a", DType.obj, [Cell.str "x", Cell.str "x", Cell.na]⟩] =
      Except.ok [⟨"a", DType.obj, [Cell.str "x"]⟩] ∧
    (tableRows [⟨"a", DType.obj, [Cell.str "x"]⟩]).Nodup ∧
    Cell.str "x" ≠ Cell.na := by
  have h : clean_dataframe demoParsers [⟨"a", DType.obj, [Cell.str "x", Cell.str "x", Cell.na]⟩] =
      Except.ok [⟨"a", DType.obj, [Cell.str "x"]⟩] :=
    okTable_eq_some _ _ (by decide)
  refine ⟨h, (claim_C2_amended demoParsers _ _ h).2.2, ?_⟩
  exact (claim_C2_amended demoParsers _ _ h).2.1 [Cell.str "x"] (by decide) (Cell.str "x")
    (by decide)

/-- **C3, counterexample.**  `clean` is *not* side-effect-free on its input:
line 28 (`df.columns = df.columns.str.strip()`) runs on the caller's object,
so a column named `"a "` is renamed `"a"` in the caller's table. -/
theorem claim_C3_counterexample :
    inputAfterClean [⟨"a ", DType.obj, [Cell.str "x"]⟩] =
      [⟨"a", DType.obj, [Cell.str "x"]⟩] ∧
    ([⟨"a ", DType.obj, [Cell.str "x"]⟩] : Table) ≠ [⟨"a", DType.obj, [Cell.str "x"]⟩] := by
  refine ⟨by decide, by decide⟩

/-- **C3, amended.**  The output of `clean` depends only on the input table
(it is a function of it), and the only mutation of the input is the in-place
stripping of column-name whitespace on line 28 — cell values, dtypes, column
order and count are untouched; in particular, if every column name is already
free of leading/trailing whitespace, the input table is left unchanged. -/
theorem claim_C3_amended (t : Table) (h : ∀ c ∈ t, trimPy c.name = c.name) :
    inputAfterClean t = t := by
  unfold inputAfterClean stripNames
  apply map_eq_self_of_fix
  intro c hc
  rw [h c hc]

/-- Witness for C3 on a concrete run. -/
theorem claim_C3_witness :
    trimPy "a" = "a" ∧
    inputAfterClean [⟨"a", DType.obj, [Cell.str "x"]⟩] = [⟨"a", DType.obj, [Cell.str "x"]⟩] :=
  ⟨by decide, claim_C3_amended _ (by decide)⟩

/-! ### Type inference (claims C5, C6) -/

theorem parsed_count_eq (P : Parsers) (cells : List Cell) :
    (cells.filter (fun x => !x.isNa)).countP (fun x => !(convCell P x).isNa) =
      countNonNa (cells.map (convCell P)) := by
  unfold countNonNa
  rw [← List.countP_eq_length_filter]
  rw [List.countP_filter]
  rw [List.countP_map]
  congr 1
  funext x
  cases x with
  | na => simp [convCell, Cell.isNa]
  | str s => simp [Cell.isNa]
  | num q => simp [Cell.isNa]
  | date d => simp [Cell.isNa]

/-- **C5.**  For every parser behaviour and every object (text) column:
writing `nonMissing` for its non-missing cells and `parsed` for the number of
those that parse as dates (`errors='coerce'` turns the others into missing),
the column is replaced by the parsed values, with dtype datetime, exactly when
`nonMissing ≠ 0` and `parsed / nonMissing ≥ 0.8`; at ratio `< 0.8`, and always
when the column has no non-missing cell, it is left unchanged. -/
theorem claim_C5_date_threshold (P : Parsers) (c : Col) (hobj : c.dtype = DType.obj) :
    ((c.cells.filter (fun x => !x.isNa)).length = 0 → dateStepCol P c = c) ∧
    (0 < (c.cells.filter (fun x => !x.isNa)).length →
      (((0.8 : ℚ) ≤
          ((c.cells.filter (fun x => !x.isNa)).countP (fun x => !(convCell P x).isNa) : ℚ) /
            ((c.cells.filter (fun x => !x.isNa)).length : ℚ) →
        dateStepCol P c =
          { name := c.name, dtype := DType.datetime, cells := c.cells.map (convCell P) }) ∧
      ((((c.cells.filter (fun x => !x.isNa)).countP (fun x => !(convCell P x).isNa) : ℚ) /
            ((c.cells.filter (fun x => !x.isNa)).length : ℚ) < 0.8 →
        dateStepCol P c = c)))) := by
  have hlen : (c.cells.filter (fun x => !x.isNa)).length = countNonNa c.cells := rfl
  have hpar := parsed_count_eq P c.cells
  unfold dateStepCol
  rw [if_neg (fun h => h hobj)]
  constructor
  · intro h0
    rw [if_neg]
    intro hcond
    rw [dateCond, ← hlen, h0] at hcond
    exact absurd hcond.1 (by omega)
  · intro hpos
    constructor
    · intro hge
      rw [if_pos]
      refine ⟨by rw [← hlen]; exact hpos, ?_⟩
      rw [← hpar, ← hlen]
      exact hge
    · intro hlt
      rw [if_neg]
      intro hcond
      have := hcond.2
      rw [← hpar, ← hlen] at this
      exact absurd this (not_le.mpr hlt)

/-- Witness for C5: exactly 80% (4 of 5) converts, with the failing cell
becoming missing; 60% (3 of 5) leaves the column as text.  The last conjunct
is obtained from the threshold theorem with its ratio premise discharged. -/
theorem claim_C5_witness :
    dateStepCol demoParsers dateCol45 =
      { name := "d", dtype := DType.datetime,
        cells := [Cell.date 20210101, Cell.date 20210102, Cell.date 20210103,
          Cell.date 20210104, Cell.na] } ∧
    dateStepCol demoParsers dateCol35 = dateCol35 ∧
    dateStepCol demoParsers dateCol45 =
      { name := dateCol45.name, dtype := DType.datetime,
        cells := dateCol45.cells.map (convCell demoParsers) } := by
  refine ⟨by decide, by decide, ?_⟩
  have hc : (dateCol45.cells.filter (fun x => !x.isNa)).countP
      (fun x => !(convCell demoParsers x).isNa) = 4 := by decide
  have hl : (dateCol45.cells.filter (fun x => !x.isNa)).length = 5 := by decide
  have hratio : (0.8 : ℚ) ≤
      ((dateCol45.cells.filter (fun x => !x.isNa)).countP
          (fun x => !(convCell demoParsers x).isNa) : ℚ) /
        ((dateCol45.cells.filter (fun x => !x.isNa)).length : ℚ) := by
    rw [hc, hl]
    norm_num
  exact (((claim_C5_date_threshold demoParsers dateCol45 rfl).2 (by rw [hl]; omega)).1 hratio)

theorem optionMapList_some {α β : Type} (f : α → Option β) (l : List α) (l2 : List β)
    (h : optionMapList f l = some l2) :
    List.Forall₂ (fun a b => f a = some b) l l2 := by
  induction l generalizing l2 with
  | nil =>
    rw [optionMapList] at h
    rw [← Option.some.injEq _ _ |>.mp h]
    exact List.Forall₂.nil
  | cons x xs ih =>
    rw [optionMapList] at h
    cases hfx : f x with
    | none => rw [hfx] at h; exact absurd h (by simp)
    | some y =>
      rw [hfx] at h
      cases hrec : optionMapList f xs with
      | none => rw [hrec] at h; exact absurd h (by simp)
      | some ys =>
        rw [hrec] at h
        simp only [Option.some.injEq] at h
        rw [← h]
        exact List.Forall₂.cons hfx (ih ys hrec)

/-- **C6.**  Numeric inference is all-or-nothing per column: a text (object)
column not converted to dates is either left completely unchanged by the
numeric step, or replaced as a whole by a numeric column in which missing
cells stay missing and every originally non-missing cell holds a number — no
individual cell is coerced to missing by this step. -/
theorem claim_C6_numeric_all_or_nothing (P : Parsers) (c : Col) (hobj : c.dtype = DType.obj) :
    numStepCol P c = c ∨
    ((numStepCol P c).name = c.name ∧ (numStepCol P c).dtype = DType.numeric ∧
      List.Forall₂
        (fun a b => (a = Cell.na ∧ b = Cell.na) ∨ (a ≠ Cell.na ∧ ∃ q : ℚ, b = Cell.num q))
        c.cells (numStepCol P c).cells) := by
  unfold numStepCol
  rw [if_neg (fun h => h hobj)]
  cases hm : optionMapList (tryNumCell P) c.cells with
  | none => left; rfl
  | some cells2 =>
    right
    refine ⟨rfl, rfl, ?_⟩
    have hfa := optionMapList_some (tryNumCell P) c.cells cells2 hm
    apply List.Forall₂.imp ?_ hfa
    intro a b hab
    cases a with
    | na =>
      left
      refine ⟨rfl, ?_⟩
      rw [show tryNumCell P Cell.na = some Cell.na from rfl] at hab
      exact (Option.some.injEq _ _ |>.mp hab).symm
    | str s =>
      right
      refine ⟨by simp, ?_⟩
      rw [show tryNumCell P (Cell.str s) = (P.parseNum s).map Cell.num from rfl] at hab
      cases hq : P.parseNum s with
      | none => rw [hq] at hab; exact absurd hab (by simp)
      | some q =>
        rw [hq] at hab
        have hb : Cell.num q = b := by simpa using hab
        exact ⟨q, hb.symm⟩
    | num q =>
      right
      refine ⟨by simp, q, ?_⟩
      rw [show tryNumCell P (Cell.num q) = some (Cell.num q) from rfl] at hab
      exact (Option.some.injEq _ _ |>.mp hab).symm
    | date d =>
      rw [show tryNumCell P (Cell.date d) = none from rfl] at hab
      exact absurd hab (by simp)

/-- Witness for C6: a parseable column converts wholly (missing stays
missing), a column with one unparseable cell is left wholly unchanged. -/
theorem claim_C6_witness :
    numStepCol demoParsers ⟨"n", DType.obj, [Cell.str "5", Cell.na]⟩ =
      ⟨"n", DType.numeric, [Cell.num 5, Cell.na]⟩ ∧
    numStepCol demoParsers ⟨"m", DType.obj, [Cell.str "5", Cell.str "x"]⟩ =
      ⟨"m", DType.obj, [Cell.str "5", Cell.str "x"]⟩ ∧
    (numStepCol demoParsers ⟨"n", DType.obj, [Cell.str "5", Cell.na]⟩ =
        ⟨"n", DType.obj, [Cell.str "5", Cell.na]⟩ ∨
      ((numStepCol demoParsers ⟨"n", DType.obj, [Cell.str "5", Cell.na]⟩).name =
          (Col.mk "n" DType.obj [Cell.str "5", Cell.na]).name ∧
        (numStepCol demoParsers ⟨"n", DType.obj, [Cell.str "5", Cell.na]⟩).dtype =
          DType.numeric ∧
        List.Forall₂
          (fun a b => (a = Cell.na ∧ b = Cell.na) ∨ (a ≠ Cell.na ∧ ∃ q : ℚ, b = Cell.num q))
          (Col.mk "n" DType.obj [Cell.str "5", Cell.na]).cells
          (numStepCol demoParsers ⟨"n", DType.obj, [Cell.str "5", Cell.na]⟩).cells)) :=
  ⟨by decide, by decide,
    claim_C6_numeric_all_or_nothing demoParsers ⟨"n", DType.obj, [Cell.str "5", Cell.na]⟩ rfl⟩

/-! ### Error behaviour and empty tables (claims C8, C10) -/

theorem dedupColumnsAux_subset (t : Table) (seen : List String) (c : Col)
    (h : c ∈ dedupColumnsAux seen t) : c ∈ t := by
  induction t generalizing seen with
  | nil => simp [dedupColumnsAux] at h
  | cons c0 rest ih =>
    rw [dedupColumnsAux] at h
    by_cases h0 : c0.name ∈ seen
    · simp only [h0, if_true] at h
      exact List.mem_cons_of_mem _ (ih seen h)
    · simp only [h0, if_false] at h
      rcases List.mem_cons.mp h with h1 | h1
      · exact h1 ▸ List.mem_cons_self _ _
      · exact List.mem_cons_of_mem _ (ih (c0.name :: seen) h1)

theorem stagePre_cells_origin (t : Table) (c : Col) (h : c ∈ stagePre t) :
    ∃ c0 ∈ t, c.cells = c0.cells.map clean_cell := by
  unfold stagePre applymapClean at h
  rcases List.mem_map.mp h with ⟨c1, hc1, hc1e⟩
  unfold sanitizeNames at hc1
  rcases List.mem_map.mp hc1 with ⟨c2, hc2, hc2e⟩
  have hc3 : c2 ∈ stripNames t := dedupColumnsAux_subset _ _ _ hc2
  unfold stripNames at hc3
  rcases List.mem_map.mp hc3 with ⟨c4, hc4, hc4e⟩
  refine ⟨c4, hc4, ?_⟩
  rw [← hc1e]
  simp only
  rw [← hc2e]
  simp only
  rw [← hc4e]

theorem dateStepCol_eq_self_of_not_cond (P : Parsers) (c : Col)
    (h : c.dtype = DType.obj → ¬ dateCond P c) : dateStepCol P c = c := by
  unfold dateStepCol
  by_cases hd : c.dtype = DType.obj
  · rw [if_neg (fun hne => hne hd), if_neg (h hd)]
  · rw [if_pos hd]

theorem dateStepCol_eq_self_of_nil (P : Parsers) (c : Col) (h : c.cells = []) :
    dateStepCol P c = c := by
  apply dateStepCol_eq_self_of_not_cond
  intro _ hcond
  rw [dateCond, h] at hcond
  exact absurd hcond.1 (by simp [countNonNa])

theorem numStepCol_cells_nil (P : Parsers) (c : Col) (h : c.cells = []) :
    (numStepCol P c).cells = [] := by
  unfold numStepCol
  by_cases hd : c.dtype = DType.obj
  · rw [if_neg (fun hne => hne hd), h]
    rfl
  · rw [if_pos hd]
    exact h

/-- **C8, counterexample.**  The per-column cleaning stages on `tableC8`
yield the empty table (zero columns), yet `clean` does not return it as a
normal result: `df['a_b']` selects two columns and
`pd.to_datetime(DataFrame, errors='coerce')` raises. -/
theorem claim_C8_counterexample :
    clean_stages demoParsers tableC8 = [] ∧
    okTable (clean_dataframe demoParsers tableC8) = none :=
  ⟨by decide, by decide⟩

/-- **C8, amended.**  Provided no two object columns share a sanitised name
(otherwise the datetime loop raises a `ValueError` regardless of emptiness),
`clean` returns the value computed by the cleaning stages as a normal result —
also, in particular, when that value has zero rows or zero columns; emptiness
itself never raises. -/
theorem claim_C8_amended (P : Parsers) (t : Table)
    (h : hasDupObjName (stagePre t) = false) :
    clean_dataframe P t = Except.ok (clean_stages P t) := by
  unfold clean_dataframe clean_stages
  simp [h]

/-- Witness for C8 on a concrete run whose legitimate result is empty. -/
theorem claim_C8_witness :
    hasDupObjName (stagePre [⟨"a", DType.obj, [Cell.str "null"]⟩]) = false ∧
    clean_dataframe demoParsers [⟨"a", DType.obj, [Cell.str "null"]⟩] = Except.ok [] := by
  have h : hasDupObjName (stagePre [⟨"a", DType.obj, [Cell.str "null"]⟩]) = false := by decide
  refine ⟨h, ?_⟩
  rw [claim_C8_amended demoParsers _ h]
  rw [show clean_stages demoParsers [⟨"a", DType.obj, [Cell.str "null"]⟩] = [] by decide]

/-- **C10, counterexample.**  A zero-row input does not always produce a
zero-column table: when sanitised object-column names collide, `clean` raises
in the datetime loop instead of returning any table. -/
theorem claim_C10_counterexample :
    tableC10.map Col.cells = [[], []] ∧
    nRows tableC10 = 0 ∧
    okTable (clean_dataframe demoParsers tableC10) = none :=
  ⟨by decide, by decide, by decide⟩

/-- **C10, amended.**  For every zero-row input table whose sanitised
object-column names do not collide, `clean` returns the empty table with zero
columns: with no rows, `dropna(axis=1, how='all')` drops every column
(vacuously all-missing, non-missing count zero). -/
theorem claim_C10_amended (P : Parsers) (t : Table) (hz : ∀ c ∈ t, c.cells = [])
    (hnd : hasDupObjName (stagePre t) = false) :
    clean_dataframe P t = Except.ok [] := by
  have hpre : ∀ c ∈ stagePre t, c.cells = [] := by
    intro c hc
    rcases stagePre_cells_origin t c hc with ⟨c0, hc0, he⟩
    rw [he, hz c0 hc0]
    rfl
  have hnum : ∀ c ∈ numericStage P (dateStage P (stagePre t)), c.cells = [] := by
    intro c hc
    rcases List.mem_map.mp hc with ⟨c1, hc1, hc1e⟩
    rcases List.mem_map.mp hc1 with ⟨c2, hc2, hc2e⟩
    have h2 : c2.cells = [] := hpre c2 hc2
    rw [← hc1e, ← hc2e, dateStepCol_eq_self_of_nil P c2 h2]
    exact numStepCol_cells_nil P c2 h2
  have hdrop : dropAllNaCols (numericStage P (dateStage P (stagePre t))) = [] := by
    unfold dropAllNaCols
    rw [List.filter_eq_nil_iff]
    intro c hc
    rw [hnum c hc]
    simp
  apply (clean_dataframe_ok_iff P t []).mpr
  refine ⟨hnd, ?_⟩
  unfold stagePost
  rw [hdrop]
  rfl

/-- Witness for C10 on a concrete zero-row run. -/
theorem claim_C10_witness :
    nRows [⟨"a b", DType.obj, []⟩] = 0 ∧
    hasDupObjName (stagePre [⟨"a b", DType.obj, []⟩]) = false ∧
    clean_dataframe demoParsers [⟨"a b", DType.obj, []⟩] = Except.ok [] :=
  ⟨by decide, by decide, claim_C10_amended demoParsers _ (by decide) (by decide)⟩

/-! ### Whitespace-only cells (claim C9) -/

theorem normalizeChars_all_space (l : List Char) (h : l.all isPySpace = true) :
    normalizeChars l = [] := by
  have h1 : trimLeft l = [] := by
    unfold trimLeft
    rw [List.dropWhile_eq_nil_iff]
    intro x hx
    exact List.all_eq_true.mp h x hx
  unfold normalizeChars trimChars
  rw [h1]
  rfl

theorem clean_cell_all_space (s : String) (h : s.data.all isPySpace = true) :
    clean_cell (Cell.str s) = Cell.str "" := by
  show (if lowerStr (normalizeStr s) ∈ sentinels then Cell.na else Cell.str (normalizeStr s)) =
    Cell.str ""
  have hn : normalizeStr s = String.mk [] := by
    unfold normalizeStr
    rw [normalizeChars_all_space s.data h]
  rw [hn]
  decide

theorem numStepCol_na_pattern (P : Parsers) (c : Col) :
    List.Forall₂ (fun x y => y.isNa = x.isNa) c.cells (numStepCol P c).cells := by
  have hrefl : ∀ (l : List Cell), List.Forall₂ (fun x y => y.isNa = x.isNa) l l := by
    intro l
    induction l with
    | nil => exact List.Forall₂.nil
    | cons a t ih => exact List.Forall₂.cons rfl ih
  unfold numStepCol
  by_cases hd : c.dtype = DType.obj
  · rw [if_neg (fun hne => hne hd)]
    cases hm : optionMapList (tryNumCell P) c.cells with
    | none => exact hrefl c.cells
    | some cells2 =>
      simp only
      have hfa := optionMapList_some (tryNumCell P) c.cells cells2 hm
      apply List.Forall₂.imp ?_ hfa
      intro a b hab
      cases a with
      | na =>
        rw [show tryNumCell P Cell.na = some Cell.na from rfl] at hab
        rw [← Option.some.injEq _ _ |>.mp hab]
      | str s =>
        rw [show tryNumCell P (Cell.str s) = (P.parseNum s).map Cell.num from rfl] at hab
        cases hq : P.parseNum s with
        | none => rw [hq] at hab; exact absurd hab (by simp)
        | some q =>
          rw [hq] at hab
          have hb : Cell.num q = b := by simpa using hab
          rw [← hb]
          rfl
      | num q =>
        rw [show tryNumCell P (Cell.num q) = some (Cell.num q) from rfl] at hab
        rw [← Option.some.injEq _ _ |>.mp hab]
      | date d =>
        rw [show tryNumCell P (Cell.date d) = none from rfl] at hab
        exact absurd hab (by simp)
  · rw [if_pos hd]
    exact hrefl c.cells

/-- **C9, counterexample.**  The whitespace-only cell does normalise to the
present empty string, but its column passes the 80% date threshold (4 of 5),
the empty string fails to parse and becomes missing, and the missing-row step
then drops its row: the output has 4 rows instead of 5. -/
theorem claim_C9_counterexample :
    clean_cell (Cell.str "   ") = Cell.str "" ∧
    nRows tableC9 = 5 ∧
    okTable (clean_dataframe demoParsers tableC9) =
      some [⟨"d", DType.datetime, [Cell.date 20210101, Cell.date 20210102,
        Cell.date 20210103, Cell.date 20210104]⟩] ∧
    nRows [⟨"d", DType.datetime, [Cell.date 20210101, Cell.date 20210102,
      Cell.date 20210103, Cell.date 20210104]⟩] = 4 :=
  ⟨by decide, by decide, by decide, by decide⟩

/-- **C9, amended.**  A whitespace-only string cell is normalised to the
empty string, a *present* value: it is not a sentinel and does not become the
missing marker in the normalisation stage.  Provided its column is not
converted by the date stage (the empty string fails date parsing, so in a
converted column it would become missing like any unparseable text), type
inference preserves the missing/present status of every cell, a column
containing the empty-string cell is never dropped by the all-missing-column
drop, and only rows containing an actually-missing cell are dropped. -/
theorem claim_C9_amended (P : Parsers) (t : Table)
    (h : ∀ c ∈ t, c.dtype = DType.obj → ¬ dateCond P c) :
    (∀ s : String, s.data.all isPySpace = true → clean_cell (Cell.str s) = Cell.str "") ∧
    List.Forall₂
      (fun c c2 => c2.name = c.name ∧
        List.Forall₂ (fun x y => y.isNa = x.isNa) c.cells c2.cells)
      t (numericStage P (dateStage P t)) ∧
    (∀ (u : Table) (c : Col), c ∈ u → Cell.str "" ∈ c.cells → c ∈ dropAllNaCols u) := by
  refine ⟨fun s hs => clean_cell_all_space s hs, ?_, ?_⟩
  · induction t with
    | nil => exact List.Forall₂.nil
    | cons c cs ih =>
      have hc : c.dtype = DType.obj → ¬ dateCond P c := h c (List.mem_cons_self _ _)
      have hdc : dateStepCol P c = c := dateStepCol_eq_self_of_not_cond P c hc
      rw [show numericStage P (dateStage P (c :: cs)) =
        numStepCol P (dateStepCol P c) :: numericStage P (dateStage P cs) from rfl]
      refine List.Forall₂.cons ?_ (ih (fun c2 hc2 => h c2 (List.mem_cons_of_mem _ hc2)))
      rw [hdc]
      exact ⟨numStepCol_name P c, numStepCol_na_pattern P c⟩
  · intro u c hc hmem
    unfold dropAllNaCols
    apply List.mem_filter.mpr
    refine ⟨hc, ?_⟩
    apply List.any_eq_true.mpr
    exact ⟨Cell.str "", hmem, rfl⟩

/-- Witness for C9 on a concrete run. -/
theorem claim_C9_witness :
    clean_cell (Cell.str "   ") = Cell.str "" ∧
    List.Forall₂
      (fun (c c2 : Col) => c2.name = c.name ∧
        List.Forall₂ (fun (x y : Cell) => y.isNa = x.isNa) c.cells c2.cells)
      [⟨"a", DType.obj, [Cell.str ""]⟩]
      (numericStage demoParsers (dateStage demoParsers [⟨"a", DType.obj, [Cell.str ""]⟩])) ∧
    (Col.mk "a" DType.obj [Cell.str ""]) ∈ dropAllNaCols [⟨"a", DType.obj, [Cell.str ""]⟩] := by
  have H := claim_C9_amended demoParsers [⟨"a", DType.obj, [Cell.str ""]⟩] (by decide)
  exact ⟨H.1 "   " (by decide), H.2.1,
    H.2.2 [⟨"a", DType.obj, [Cell.str ""]⟩] _ (by decide) (by decide)⟩

theorem dedupRowsAux_eq_self (l seen : List (List Cell)) (hn : l.Nodup)
    (hd : ∀ r ∈ l, r ∉ seen) : dedupRowsAux seen l = l := by
  induction l generalizing seen with
  | nil => rfl
  | cons r0 rest ih =>
    rw [dedupRowsAux]
    have h0 : r0 ∉ seen := hd r0 (List.mem_cons_self _ _)
    simp only [h0, if_false]
    congr 1
    apply ih (r0 :: seen) (List.nodup_cons.mp hn).2
    intro r hr
    rcases List.nodup_cons.mp hn with ⟨hr0, -⟩
    intro hmem
    rcases List.mem_cons.mp hmem with h1 | h1
    · exact hr0 (h1 ▸ hr)
    · exact hd r (List.mem_cons_of_mem _ hr) h1

/-! ### Idempotence infrastructure (claim C4) -/

theorem word_not_space (ch : Char) (h : isWordChar ch = true) : isPySpace ch = false := by
  cases hs : isPySpace ch with
  | false => rfl
  | true =>
    exfalso
    unfold isPySpace at hs
    simp only [Bool.or_eq_true, beq_iff_eq] at hs
    rcases hs with ((((h1 | h1) | h1) | h1) | h1) | h1 <;>
      · rw [h1] at h
        exact absurd h (by decide)

theorem getLastD_mem_cons (t : List Char) (a : Char) : t.getLastD a ∈ a :: t := by
  induction t generalizing a with
  | nil => exact List.mem_cons_self _ _
  | cons b t2 ih =>
    rw [List.getLastD_cons]
    exact List.mem_cons_of_mem _ (ih b)

theorem lastIsSpace_false_of_all (l : List Char) (h : ∀ x ∈ l, isPySpace x = false) :
    lastIsSpace l = false := by
  cases l with
  | nil => rfl
  | cons a t => exact h _ (getLastD_mem_cons t a)

theorem trimPy_eq_self_of_wordChars (s : String) (h : ∀ ch ∈ s.data, isWordChar ch = true) :
    trimPy s = s := by
  have hns : ∀ ch ∈ s.data, isPySpace ch = false := fun ch hch => word_not_space ch (h ch hch)
  have h1 : trimLeft s.data = s.data := by
    apply trimLeft_id
    cases hd : s.data with
    | nil => rfl
    | cons a t =>
      show isPySpace a = false
      exact hns a (by rw [hd]; exact List.mem_cons_self _ _)
  have h2 : trimRight s.data = s.data := trimRight_id _ (lastIsSpace_false_of_all _ hns)
  show String.mk (trimRight (trimLeft s.data)) = s
  rw [h1, h2]

theorem sanitizeAux_eq_self_of_wordChars (l : List Char) (h : ∀ ch ∈ l, isWordChar ch = true) :
    sanitizeAux false l = l := by
  induction l with
  | nil => rfl
  | cons a t ih =>
    have ha : isWordChar a = true := h a (List.mem_cons_self _ _)
    rw [show sanitizeAux false (a :: t) = a :: sanitizeAux false t by simp [sanitizeAux, ha]]
    rw [ih (fun ch hch => h ch (List.mem_cons_of_mem _ hch))]

theorem sanitizeName_eq_self_of_wordChars (s : String) (h : ∀ ch ∈ s.data, isWordChar ch = true) :
    sanitizeName s = s := by
  show String.mk (sanitizeAux false s.data) = s
  rw [sanitizeAux_eq_self_of_wordChars s.data h]

theorem dedupColumnsAux_eq_self (t : Table) (seen : List String) (hn : (colNames t).Nodup)
    (hd : ∀ c ∈ t, c.name ∉ seen) : dedupColumnsAux seen t = t := by
  induction t generalizing seen with
  | nil => rfl
  | cons c0 rest ih =>
    rw [dedupColumnsAux]
    have h0 : c0.name ∉ seen := hd c0 (List.mem_cons_self _ _)
    simp only [h0, if_false]
    congr 1
    have hn2 : (colNames rest).Nodup := (List.nodup_cons.mp hn).2
    apply ih (c0.name :: seen) hn2
    intro c hc
    intro hmem
    rcases List.mem_cons.mp hmem with h1 | h1
    · have : c0.name ∉ colNames rest := (List.nodup_cons.mp hn).1
      exact this (h1 ▸ List.mem_map_of_mem (fun c2 => c2.name) hc)
    · exact hd c (List.mem_cons_of_mem _ hc) h1

theorem hasDupObjName_false_of_nodup (t : Table) (hn : (colNames t).Nodup) :
    hasDupObjName t = false := by
  unfold hasDupObjName
  apply List.any_eq_false.mpr
  intro c hc
  have hcount : (t.filter (fun c2 => c2.name == c.name)).length ≤ 1 := by
    have he1 : (t.filter (fun c2 => c2.name == c.name)).length =
        t.countP (fun c2 => c2.name == c.name) := by
      rw [List.countP_eq_length_filter]
    have he2 : t.countP (fun c2 => c2.name == c.name) =
        (colNames t).countP (fun x => x == c.name) := by
      unfold colNames
      rw [List.countP_map]
      rfl
    have he3 : (colNames t).countP (fun x => x == c.name) = (colNames t).count c.name := rfl
    rw [he1, he2, he3]
    exact List.nodup_iff_count_le_one.mp hn c.name
  have hdec : decide (2 ≤ (t.filter (fun c2 => c2.name == c.name)).length) = false :=
    decide_eq_false (by omega)
  rw [hdec, Bool.and_false]
  simp

theorem isNa_false_of_ne (x : Cell) (h : x ≠ Cell.na) : x.isNa = false := by
  cases x with
  | na => exact absurd rfl h
  | str s => rfl
  | num q => rfl
  | date d => rfl

theorem clean_cell_eq_self_of_not_str (x : Cell) (h : ∀ s, x ≠ Cell.str s) :
    clean_cell x = x := by
  cases x with
  | na => rfl
  | str s => exact absurd rfl (h s)
  | num q => rfl
  | date d => rfl

theorem convCell_not_str (P : Parsers) (y : Cell) (s : String) : convCell P y ≠ Cell.str s := by
  cases y with
  | na => simp [convCell]
  | str s2 => cases hp : P.parseDate s2 <;> simp [convCell, hp]
  | num q => cases hp : P.numToDate q <;> simp [convCell, hp]
  | date d => simp [convCell]

theorem optionMapList_mem {α β : Type} (f : α → Option β) (l : List α) (l2 : List β)
    (h : optionMapList f l = some l2) (b : β) (hb : b ∈ l2) : ∃ a ∈ l, f a = some b := by
  induction l generalizing l2 with
  | nil =>
    rw [optionMapList] at h
    rw [← Option.some.injEq _ _ |>.mp h] at hb
    simp at hb
  | cons x xs ih =>
    rw [optionMapList] at h
    cases hfx : f x with
    | none => rw [hfx] at h; exact absurd h (by simp)
    | some y =>
      rw [hfx] at h
      cases hrec : optionMapList f xs with
      | none => rw [hrec] at h; exact absurd h (by simp)
      | some ys =>
        rw [hrec] at h
        simp only [Option.some.injEq] at h
        rw [← h] at hb
        rcases List.mem_cons.mp hb with h1 | h1
        · exact ⟨x, List.mem_cons_self _ _, by rw [hfx, h1]⟩
        · rcases ih ys hrec h1 with ⟨a, ha, hfa⟩
          exact ⟨a, List.mem_cons_of_mem _ ha, hfa⟩

theorem tryNumCell_not_str (P : Parsers) (a b : Cell) (s : String)
    (h : tryNumCell P a = some b) : b ≠ Cell.str s := by
  cases a with
  | na =>
    rw [show tryNumCell P Cell.na = some Cell.na from rfl] at h
    rw [← Option.some.injEq _ _ |>.mp h]
    simp
  | str s2 =>
    rw [show tryNumCell P (Cell.str s2) = (P.parseNum s2).map Cell.num from rfl] at h
    cases hq : P.parseNum s2 with
    | none => rw [hq] at h; exact absurd h (by simp)
    | some q =>
      rw [hq] at h
      have : Cell.num q = b := by simpa using h
      rw [← this]
      simp
  | num q =>
    rw [show tryNumCell P (Cell.num q) = some (Cell.num q) from rfl] at h
    rw [← Option.some.injEq _ _ |>.mp h]
    simp
  | date d =>
    rw [show tryNumCell P (Cell.date d) = none from rfl] at h
    exact absurd h (by simp)

theorem applymapClean_cells_fix (v : Table) :
    ∀ c ∈ applymapClean v, ∀ x ∈ c.cells, clean_cell x = x := by
  intro c hc x hx
  unfold applymapClean at hc
  rcases List.mem_map.mp hc with ⟨c1, -, hc1e⟩
  rw [← hc1e] at hx
  simp only at hx
  rcases List.mem_map.mp hx with ⟨y, -, hye⟩
  rw [← hye]
  exact clean_cell_idem y

theorem dateStage_cells_fix (P : Parsers) (v : Table)
    (h : ∀ c ∈ v, ∀ x ∈ c.cells, clean_cell x = x) :
    ∀ c ∈ dateStage P v, ∀ x ∈ c.cells, clean_cell x = x := by
  intro c hc x hx
  unfold dateStage at hc
  rcases List.mem_map.mp hc with ⟨c1, hc1, hc1e⟩
  rw [← hc1e] at hx
  unfold dateStepCol at hx
  by_cases hd : c1.dtype = DType.obj
  · rw [if_neg (fun hne => hne hd)] at hx
    by_cases hcond : dateCond P c1
    · rw [if_pos hcond] at hx
      simp only at hx
      rcases List.mem_map.mp hx with ⟨y, -, hye⟩
      rw [← hye]
      exact clean_cell_eq_self_of_not_str _ (fun s => convCell_not_str P y s)
    · rw [if_neg hcond] at hx
      exact h c1 hc1 x hx
  · rw [if_pos hd] at hx
    exact h c1 hc1 x hx

theorem numericStage_cells_fix (P : Parsers) (v : Table)
    (h : ∀ c ∈ v, ∀ x ∈ c.cells, clean_cell x = x) :
    ∀ c ∈ numericStage P v, ∀ x ∈ c.cells, clean_cell x = x := by
  intro c hc x hx
  unfold numericStage at hc
  rcases List.mem_map.mp hc with ⟨c1, hc1, hc1e⟩
  rw [← hc1e] at hx
  unfold numStepCol at hx
  by_cases hd : c1.dtype = DType.obj
  · rw [if_neg (fun hne => hne hd)] at hx
    cases hm : optionMapList (tryNumCell P) c1.cells with
    | none =>
      rw [hm] at hx
      exact h c1 hc1 x hx
    | some cells2 =>
      rw [hm] at hx
      simp only at hx
      rcases optionMapList_mem (tryNumCell P) c1.cells cells2 hm x hx with ⟨a, -, hfa⟩
      exact clean_cell_eq_self_of_not_str _ (fun s => tryNumCell_not_str P a x s hfa)
  · rw [if_pos hd] at hx
    exact h c1 hc1 x hx

theorem getD_cases (l : List Cell) (j : ℕ) :
    l.getD j Cell.na ∈ l ∨ l.getD j Cell.na = Cell.na := by
  by_cases hj : j < l.length
  · left
    rw [List.getD_eq_getElem _ _ hj]
    exact List.getElem_mem hj
  · right
    exact List.getD_eq_default _ _ (by omega)

theorem withRows_cells_prop (Q : Cell → Prop) (hna : Q Cell.na) (t : Table)
    (rs : List (List Cell)) (hrows : ∀ r ∈ rs, ∀ x ∈ r, Q x) :
    ∀ c ∈ withRows t rs, ∀ x ∈ c.cells, Q x := by
  intro c hc x hx
  rcases withRows_mem t rs c hc with ⟨-, -, -, -, j, -, hcells⟩
  rw [hcells] at hx
  rcases List.mem_map.mp hx with ⟨r, hr, hre⟩
  rcases getD_cases r j with hcase | hcase
  · rw [← hre]
    exact hrows r hr _ hcase
  · rw [← hre, hcase]
    exact hna

theorem tableRows_cells_prop (Q : Cell → Prop) (hna : Q Cell.na) (t : Table)
    (h : ∀ c ∈ t, ∀ x ∈ c.cells, Q x) :
    ∀ r ∈ tableRows t, ∀ x ∈ r, Q x := by
  intro r hr x hx
  rcases tableRows_mem t r hr with ⟨j, -, hje⟩
  rw [hje] at hx
  unfold rowAt at hx
  rcases List.mem_map.mp hx with ⟨c, hc, hce⟩
  rcases getD_cases c.cells j with hcase | hcase
  · rw [← hce]
    exact h c hc _ hcase
  · rw [← hce, hcase]
    exact hna

theorem drop_duplicates_cells_prop (Q : Cell → Prop) (hna : Q Cell.na) (t : Table)
    (h : ∀ c ∈ t, ∀ x ∈ c.cells, Q x) :
    ∀ c ∈ drop_duplicates t, ∀ x ∈ c.cells, Q x := by
  unfold drop_duplicates
  apply withRows_cells_prop Q hna
  intro r hr
  exact tableRows_cells_prop Q hna t h r (dedupRowsAux_subset _ _ r hr)

theorem dropna_rows_cells_prop (Q : Cell → Prop) (hna : Q Cell.na) (t : Table)
    (h : ∀ c ∈ t, ∀ x ∈ c.cells, Q x) :
    ∀ c ∈ dropna_rows t, ∀ x ∈ c.cells, Q x := by
  unfold dropna_rows
  apply withRows_cells_prop Q hna
  intro r hr
  exact tableRows_cells_prop Q hna t h r (List.mem_filter.mp hr).1

theorem stagePost_cells_fix (P : Parsers) (t : Table) :
    ∀ c ∈ stagePost P (stagePre t), ∀ x ∈ c.cells, clean_cell x = x := by
  unfold stagePost
  apply dropna_rows_cells_prop (fun x => clean_cell x = x) rfl
  apply drop_duplicates_cells_prop (fun x => clean_cell x = x) rfl
  intro c hc
  have hc2 : c ∈ numericStage P (dateStage P (stagePre t)) := (List.mem_filter.mp hc).1
  exact numericStage_cells_fix P _ (dateStage_cells_fix P _ (applymapClean_cells_fix _)) c hc2

theorem numStepCol_eq_self_of_none (P : Parsers) (c : Col)
    (h : c.dtype = DType.obj → optionMapList (tryNumCell P) c.cells = none) :
    numStepCol P c = c := by
  unfold numStepCol
  by_cases hd : c.dtype = DType.obj
  · rw [if_neg (fun hne => hne hd), h hd]
  · rw [if_pos hd]

/-- **C4, counterexample.**  `clean` is not idempotent: `clean(tableC4)` has
column names `["a_b", "a_b"]`, but `clean(clean(tableC4))` has `["a_b"]` —
the duplicate-name collision produced by sanitisation is collapsed only on
the second pass, so the column names (and columns) differ. -/
theorem claim_C4_counterexample :
    okTable (clean_dataframe demoParsers tableC4) =
      some [⟨"a_b", DType.numeric, [Cell.num 1]⟩, ⟨"a_b", DType.numeric, [Cell.num 2]⟩] ∧
    (okTable (clean_dataframe demoParsers
        [⟨"a_b", DType.numeric, [Cell.num 1]⟩, ⟨"a_b", DType.numeric, [Cell.num 2]⟩])).map
      colNames = some ["a_b"] ∧
    colNames [⟨"a_b", DType.numeric, [Cell.num 1]⟩, ⟨"a_b", DType.numeric, [Cell.num 2]⟩] ≠
      ["a_b"] :=
  ⟨by decide, by decide, by decide⟩

/-- **C4, amended.**  A second pass is a no-op on already-clean data under
the provisos the counterexamples force: if `clean t` succeeds with value `u`
whose column names are pairwise distinct (sanitisation re-created no
duplicates), `u` has at least one row (otherwise the second column drop would
delete its zero-row columns), no object column of `u` newly passes the 80%
date threshold over the retained rows, and no object column of `u` newly
parses as numeric, then `clean u` succeeds and returns `u` itself — same
column names, same rows, same dtypes. -/
theorem claim_C4_amended (P : Parsers) (t u : Table)
    (h : clean_dataframe P t = Except.ok u)
    (hnames : (colNames u).Nodup)
    (hrows : 0 < nRows u)
    (hdate : ∀ c ∈ u, c.dtype = DType.obj → ¬ dateCond P c)
    (hnum : ∀ c ∈ u, c.dtype = DType.obj → optionMapList (tryNumCell P) c.cells = none) :
    clean_dataframe P u = Except.ok u := by
  have hwc : ∀ c ∈ u, ∀ ch ∈ c.name.data, isWordChar ch = true := clean_names_wordChar P t u h
  rcases (clean_dataframe_ok_iff P t u).mp h with ⟨-, hu⟩
  have hfix : ∀ c ∈ u, ∀ x ∈ c.cells, clean_cell x = x := by
    rw [hu]
    exact stagePost_cells_fix P t
  have hcells := fun c (hc : c ∈ u) => stagePost_cells P (stagePre t) c (hu ▸ hc)
  have hnona : ∀ c ∈ u, ∀ x ∈ c.cells, x ≠ Cell.na := fun c hc => (hcells c hc).1
  have halign : ∀ c ∈ u, c.cells.length = nRows u := by
    intro c hc
    rw [hu]
    exact (hcells c hc).2
  have hrnodup : (tableRows u).Nodup := by
    rw [hu]
    exact (stagePost_rows P (stagePre t)).1
  have hrnona : ∀ r ∈ tableRows u, rowHasNa r = false := by
    rw [hu]
    exact (stagePost_rows P (stagePre t)).2
  have hstrip : stripNames u = u := by
    unfold stripNames
    apply map_eq_self_of_fix
    intro c hc
    rw [trimPy_eq_self_of_wordChars c.name (hwc c hc)]
  have hdedup : dedupColumns u = u :=
    dedupColumnsAux_eq_self u [] hnames (by intro c _; simp)
  have hsan : sanitizeNames u = u := by
    unfold sanitizeNames
    apply map_eq_self_of_fix
    intro c hc
    rw [sanitizeName_eq_self_of_wordChars c.name (hwc c hc)]
  have happ : applymapClean u = u := by
    unfold applymapClean
    apply map_eq_self_of_fix
    intro c hc
    rw [map_eq_self_of_fix c.cells clean_cell (hfix c hc)]
  have hpre : stagePre u = u := by
    unfold stagePre
    rw [hstrip, hdedup, hsan, happ]
  have hdupobj : hasDupObjName u = false := hasDupObjName_false_of_nodup u hnames
  have hds : dateStage P u = u := by
    unfold dateStage
    apply map_eq_self_of_fix
    intro c hc
    exact dateStepCol_eq_self_of_not_cond P c (hdate c hc)
  have hnstage : numericStage P u = u := by
    unfold numericStage
    apply map_eq_self_of_fix
    intro c hc
    exact numStepCol_eq_self_of_none P c (hnum c hc)
  have hdropc : dropAllNaCols u = u := by
    unfold dropAllNaCols
    apply List.filter_eq_self.mpr
    intro c hc
    apply List.any_eq_true.mpr
    have hlen := halign c hc
    cases hcl : c.cells with
    | nil =>
      rw [hcl] at hlen
      simp at hlen
      omega
    | cons x xs =>
      have hx : x ∈ c.cells := by rw [hcl]; exact List.mem_cons_self _ _
      refine ⟨x, List.mem_cons_self _ _, ?_⟩
      rw [isNa_false_of_ne x (hnona c hc x hx)]
      rfl
  have hdd : drop_duplicates u = u := by
    unfold drop_duplicates
    rw [dedupRowsAux_eq_self (tableRows u) [] hrnodup (by intro r _; simp)]
    exact withRows_tableRows u halign
  have hdn : dropna_rows u = u := by
    unfold dropna_rows
    rw [show (tableRows u).filter (fun r => !rowHasNa r) = tableRows u from
      List.filter_eq_self.mpr (fun r hr => by rw [hrnona r hr]; rfl)]
    exact withRows_tableRows u halign
  apply (clean_dataframe_ok_iff P u u).mpr
  refine ⟨by rw [hpre]; exact hdupobj, ?_⟩
  rw [hpre]
  unfold stagePost
  rw [hds, hnstage, hdropc, hdd, hdn]

/-- Witness for C4: a concrete table whose first pass normalises it and whose
second pass is proved (by the amended theorem) to return it unchanged. -/
theorem claim_C4_witness :
    clean_dataframe demoParsers [⟨"Name ", DType.obj, [Cell.str " x ", Cell.str "y"]⟩] =
      Except.ok [⟨"Name", DType.obj, [Cell.str "x", Cell.str "y"]⟩] ∧
    clean_dataframe demoParsers [⟨"Name", DType.obj, [Cell.str "x", Cell.str "y"]⟩] =
      Except.ok [⟨"Name", DType.obj, [Cell.str "x", Cell.str "y"]⟩] := by
  have h : clean_dataframe demoParsers [⟨"Name ", DType.obj, [Cell.str " x ", Cell.str "y"]⟩] =
      Except.ok [⟨"Name", DType.obj, [Cell.str "x", Cell.str "y"]⟩] :=
    okTable_eq_some _ _ (by decide)
  exact ⟨h, claim_C4_amended demoParsers _ _ h (by decide) (by decide) (by decide) (by decide)⟩

end DataCleansing
